import Mathlib

/-!
Shallow embedding of the sharded-state machinery of
`apex/contrib/optimizers/distributed_fused_adam.py` (class
`DistributedFusedAdam`), together with proofs about it.

The embedding covers:

* `_round_to_multiple` and the fragment mapper `_init_param_state`
  (parameter splitting into buckets, shard-range computation);
* the bucket-size / shard-size computation from `__init__`;
* the gradient synchronization engine (`_grad_copy`,
  `_try_start_bucket_grad_sync`, `_start_bucket_grad_sync`,
  `_finish_bucket_grad_sync`, `_force_bucket_grad_sync`);
* the parameter synchronization engine (`_param_copy`,
  `_try_start_bucket_param_sync`, `_start_bucket_param_sync`,
  `_finish_bucket_param_sync`) and the two autograd hooks;
* the v2 checkpoint save/load data movement
  (`_state_dict_v2` / `_load_state_dict_v2`).

Machine tensors are modelled as total functions `Nat → Int` carrying
abstract cell values (one `Int` per element slot; no floating point
arithmetic is performed by the code fragments modelled here, only
copies and additive accumulation).  The communication collectives are
modelled at `distributed_size = 1` for the gradient engine (where the
source skips the reduce-scatter and aliases the shard buffer to the
bucket buffer) and via an explicit per-rank gather for the checkpoint
path, mirroring `torch.distributed.gather`.
-/

set_option linter.unusedVariables false

/-- Source `_round_to_multiple` (distributed_fused_adam.py lines 125-131):
`(number + multiple - 1 if round_up else number) // multiple * multiple`.
Arguments are positive integers in the source, so `Nat` division matches
Python floor division. -/
def roundToMultiple (number multiple : Nat) (round_up : Bool) : Nat :=
  (if round_up then number + multiple - 1 else number) / multiple * multiple

/-- Configuration data fixed at optimizer construction:
`self.alignment`, `self.distributed_size`, `self.distributed_rank`,
`self.default_shard_size` (source lines 568-576 and 620-627). -/
structure Config where
  alignment : Nat
  distributedSize : Nat
  distributedRank : Nat
  defaultShardSize : Nat
deriving DecidableEq

/-- Source dataclass `DistributedFusedAdam.ParameterFragment`
(lines 349-375).  Ranges are half-open `[start, end)` pairs. -/
structure ParameterFragment where
  param_group_id : Nat
  param_id : Nat
  bucket_id : Nat
  param_range : Nat × Nat
  bucket_range : Nat × Nat
  in_local_shard : Bool
  shard_range : Option (Nat × Nat)
  shard_bucket_range : Option (Nat × Nat)
  shard_param_range : Option (Nat × Nat)
deriving DecidableEq

/-- Source class `DistributedFusedAdam.StateBucket` (lines 377-429).
The device buffers (`params_shard`, `exp_avg_shard`, ...) are modelled
separately where needed; here we keep the bookkeeping fields. -/
structure StateBucket where
  bucket_size : Nat
  shard_size : Nat
  filled_size : Nat
  able_to_fill : Bool
  contiguous_buffer_offset : Nat
  fragments : List ParameterFragment
deriving DecidableEq

/-- A freshly constructed `StateBucket` as built in `_init_param_state`
(lines 1131-1146 and 1170-1185): `bucket_size = shard_size *
distributed_size` with `shard_size = self.default_shard_size`,
`filled_size = 0`, `able_to_fill = True`, no fragments. -/
def newBucket (cfg : Config) (offset : Nat) : StateBucket :=
  { bucket_size := cfg.defaultShardSize * cfg.distributedSize
    shard_size := cfg.defaultShardSize
    filled_size := 0
    able_to_fill := true
    contiguous_buffer_offset := offset
    fragments := [] }

/-- Shard-range computation of `_init_param_state` (lines 1188-1205).
Python clamps with `min(max(x, 0), shard_size)`; truncated `Nat`
subtraction provides the `max(x, 0)` part.  Returns
`(in_local_shard, shard_range, shard_bucket_range, shard_param_range)`. -/
def shardFields (rank shard_size bucket_start bucket_end param_start : Nat) :
    Bool × Option (Nat × Nat) × Option (Nat × Nat) × Option (Nat × Nat) :=
  let shard_start := min (bucket_start - shard_size * rank) shard_size
  let shard_end := min (bucket_end - shard_size * rank) shard_size
  if shard_start < shard_end then
    let shard_bucket_start := shard_start + shard_size * rank
    let shard_bucket_end := shard_bucket_start + (shard_end - shard_start)
    let shard_param_start := shard_bucket_start - bucket_start + param_start
    let shard_param_end := shard_param_start + (shard_end - shard_start)
    (true, some (shard_start, shard_end),
      some (shard_bucket_start, shard_bucket_end),
      some (shard_param_start, shard_param_end))
  else
    (false, none, none, none)

/-- Building the `ParameterFragment` record of one loop iteration of
`_init_param_state` (lines 1188-1218). -/
def mkParamFragment (cfg : Config) (param_group_id param_id bucket_id
    param_start bucket_start fragment_size shard_size : Nat) : ParameterFragment :=
  let param_end := param_start + fragment_size
  let bucket_end := bucket_start + fragment_size
  let sf := shardFields cfg.distributedRank shard_size bucket_start bucket_end param_start
  { param_group_id := param_group_id
    param_id := param_id
    bucket_id := bucket_id
    param_range := (param_start, param_end)
    bucket_range := (bucket_start, bucket_end)
    in_local_shard := sf.1
    shard_range := sf.2.1
    shard_bucket_range := sf.2.2.1
    shard_param_range := sf.2.2.2 }

/-- Record a fragment in a bucket (lines 1220-1221):
`bucket.fragments.append(fragment); bucket.filled_size = bucket_end`. -/
def applyFragment (b : StateBucket) (f : ParameterFragment) : StateBucket :=
  { b with fragments := b.fragments ++ [f], filled_size := f.bucket_range.2 }

/-- Replace the last element of a list (mutation of the current last
bucket in the source's bucket list). -/
def updateLast (l : List StateBucket) (b : StateBucket) : List StateBucket :=
  l.dropLast ++ [b]

/-- The `while param_start < param_size` loop of `_init_param_state`
(lines 1150-1222).  The source's `continue` after opening a fresh bucket
(lines 1170-1186) is fused into the same step: the fresh bucket has
`filled_size = 0` and `able_to_fill = True`, so the source's next
iteration immediately places a fragment there (if the fresh bucket's
capacity is zero the source would loop forever appending buckets; this
embedding stops instead, which is unreachable under the constructor's
`shard_size = max(..., alignment) >= 1` with a nonempty process group).

`gas` bounds the number of loop iterations; every recursive call
advances `param_start` by at least one, so `gas = param_size` (as
passed by `initParamState`) never runs out.  Returns the updated bucket
list paired with the fragment list appended to
`self.state[param]["fragments"]`. -/
def initLoop (cfg : Config) (param_group_id param_id param_size : Nat) :
    Nat → Nat → List StateBucket → List StateBucket × List ParameterFragment
  | 0, _, buckets => (buckets, [])
  | gas + 1, param_start, buckets =>
    if param_start < param_size then
      let bucket_id := buckets.length - 1
      let bucket := buckets.getLastD (newBucket cfg 0)
      let bucket_start := roundToMultiple bucket.filled_size cfg.alignment true
      let fragment_size := min (param_size - param_start) (bucket.bucket_size - bucket_start)
      if fragment_size = 0 ∨ bucket.able_to_fill = false then
        let nb := newBucket cfg (bucket.contiguous_buffer_offset + bucket.bucket_size)
        let nb_start := roundToMultiple nb.filled_size cfg.alignment true
        let nfragment_size := min (param_size - param_start) (nb.bucket_size - nb_start)
        if nfragment_size = 0 then (buckets ++ [nb], [])
        else
          let frag := mkParamFragment cfg param_group_id param_id buckets.length
            param_start nb_start nfragment_size nb.shard_size
          let r := initLoop cfg param_group_id param_id param_size gas
            (param_start + nfragment_size) (buckets ++ [applyFragment nb frag])
          (r.1, frag :: r.2)
      else
        let frag := mkParamFragment cfg param_group_id param_id bucket_id
          param_start bucket_start fragment_size bucket.shard_size
        let r := initLoop cfg param_group_id param_id param_size gas
          (param_start + fragment_size) (updateLast buckets (applyFragment bucket frag))
        (r.1, frag :: r.2)
    else (buckets, [])

/-- Source `_init_param_state` (lines 1118-1222) for a parameter that is
not yet initialized: ensure at least one bucket exists (lines 1131-1146,
first bucket at contiguous buffer offset 0), then split the flattened
parameter into fragments.  The main-param-buffer copy (lines 1224-1235)
moves no bookkeeping state and is modelled with the checkpoint path. -/
def initParamState (cfg : Config) (param_group_id param_id param_size : Nat)
    (buckets : List StateBucket) : List StateBucket × List ParameterFragment :=
  let buckets := if buckets.isEmpty then [newBucket cfg 0] else buckets
  initLoop cfg param_group_id param_id param_size param_size 0 buckets

/-- Lazy initialization of a sequence of parameters, each given as
`(param_group_id, param_id, numel)`; `init_params` (lines 1005-1040)
initializes each uninitialized parameter with `_init_param_state`.
Returns the bucket list and, per parameter, its fragment list. -/
def initParams (cfg : Config) (ps : List (Nat × Nat × Nat))
    (buckets : List StateBucket) :
    List StateBucket × List (Nat × Nat × List ParameterFragment) :=
  ps.foldl
    (fun acc p =>
      let r := initParamState cfg p.1 p.2.1 p.2.2 acc.1
      (r.1, acc.2 ++ [(p.1, p.2.1, r.2)]))
    (buckets, [])

/-- Supported optimizer/communication datatypes (source line 533). -/
inductive AdamDtype
  | float32
  | float16
  | bfloat16
deriving DecidableEq

/-- `torch.finfo(dtype).bits` for the supported dtypes. -/
def dtypeBits : AdamDtype → Nat
  | .float32 => 32
  | .float16 => 16
  | .bfloat16 => 16

/-- `dtype_size = torch.finfo(self.grad_sync_dtype).bits // 8`
(source line 621). -/
def dtypeSize (d : AdamDtype) : Nat := dtypeBits d / 8

/-- `self.alignment = 128 // dtype_size` (source line 622). -/
def alignmentOf (d : AdamDtype) : Nat := 128 / dtypeSize d

/-- Source lines 623-627:
`bucket_size = 1024*1024*bucket_cap_mb / dtype_size`,
`shard_size = int(bucket_size / self.distributed_size)`,
rounded down to a multiple of `self.alignment` and bounded below by
`self.alignment`.  The source computes `bucket_size` in Python floats;
for integral `bucket_cap_mb` and the bucket sizes in actual use
(far below 2^52 elements) the float arithmetic is exact and `int(...)`
truncation coincides with `Nat` division. -/
def defaultShardSizeOf (d : AdamDtype) (bucket_cap_mb distributed_size : Nat) : Nat :=
  let bucket_size := 1024 * 1024 * bucket_cap_mb / dtypeSize d
  let shard_size := bucket_size / distributed_size
  let shard_size := roundToMultiple shard_size (alignmentOf d) false
  max shard_size (alignmentOf d)

/-- Configuration assembled as in `__init__` (lines 620-627). -/
def mkConfig (d : AdamDtype) (bucket_cap_mb distributed_size distributed_rank : Nat) :
    Config :=
  { alignment := alignmentOf d
    distributedSize := distributed_size
    distributedRank := distributed_rank
    defaultShardSize := defaultShardSizeOf d bucket_cap_mb distributed_size }

/-! ### Well-formedness of the fragment/bucket mapping -/

instance : Inhabited StateBucket :=
  ⟨{ bucket_size := 0, shard_size := 0, filled_size := 0, able_to_fill := true
     contiguous_buffer_offset := 0, fragments := [] }⟩

/-- The fragment list of one parameter chains through `[s, n)`:
consecutive `param_range`s are adjacent, nonempty and end exactly at
`n`.  This is the contiguity/no-gap/no-overlap invariant. -/
def paramChainP (s n : Nat) : List ParameterFragment → Prop
  | [] => s = n
  | f :: fs => f.param_range.1 = s ∧ s < f.param_range.2 ∧ paramChainP f.param_range.2 n fs

instance instDecParamChainP :
    (s n : Nat) → (fs : List ParameterFragment) → Decidable (paramChainP s n fs)
  | s, n, [] => inferInstanceAs (Decidable (s = n))
  | s, n, f :: fs =>
    haveI := instDecParamChainP f.param_range.2 n fs
    inferInstanceAs (Decidable (_ ∧ _ ∧ _))

/-- The fragments recorded in one bucket chain through the bucket:
starting from fill level `fill`, each fragment starts at the fill level
rounded up to the alignment, is nonempty, stays within the bucket
capacity `cap`, and the final fill level is `fill'`. -/
def bucketChainP (A cap : Nat) : Nat → List ParameterFragment → Nat → Prop
  | fill, [], fill' => fill = fill'
  | fill, f :: fs, fill' =>
    f.bucket_range.1 = roundToMultiple fill A true ∧
    f.bucket_range.1 < f.bucket_range.2 ∧
    f.bucket_range.2 ≤ cap ∧
    bucketChainP A cap f.bucket_range.2 fs fill'

instance instDecBucketChainP :
    (A cap fill : Nat) → (fs : List ParameterFragment) → (fill' : Nat) →
    Decidable (bucketChainP A cap fill fs fill')
  | A, cap, fill, [], fill' => inferInstanceAs (Decidable (fill = fill'))
  | A, cap, fill, f :: fs, fill' =>
    haveI := instDecBucketChainP A cap f.bucket_range.2 fs fill'
    inferInstanceAs (Decidable (_ ∧ _ ∧ _ ∧ _))

/-- The stored shard-relative fields of a fragment agree with the
clamped-intersection formulas of `_init_param_state` (lines 1188-1205). -/
def ShardConsistent (rank shard_size : Nat) (f : ParameterFragment) : Prop :=
  (f.in_local_shard, f.shard_range, f.shard_bucket_range, f.shard_param_range) =
    shardFields rank shard_size f.bucket_range.1 f.bucket_range.2 f.param_range.1

instance (rank shard_size : Nat) (f : ParameterFragment) :
    Decidable (ShardConsistent rank shard_size f) := by
  unfold ShardConsistent; infer_instance

/-- The parameter-side and bucket-side ranges of a fragment have equal
lengths and are well-ordered. -/
def FragLenWf (f : ParameterFragment) : Prop :=
  f.param_range.1 ≤ f.param_range.2 ∧
  f.param_range.2 - f.param_range.1 = f.bucket_range.2 - f.bucket_range.1

instance (f : ParameterFragment) : Decidable (FragLenWf f) := by
  unfold FragLenWf; infer_instance

/-- Per-bucket invariant maintained by the mapper. -/
def BucketWf (cfg : Config) (b : StateBucket) : Prop :=
  b.bucket_size = cfg.defaultShardSize * cfg.distributedSize ∧
  b.shard_size = cfg.defaultShardSize ∧
  bucketChainP cfg.alignment b.bucket_size 0 b.fragments b.filled_size ∧
  ∀ f ∈ b.fragments, ShardConsistent cfg.distributedRank b.shard_size f ∧ FragLenWf f

instance (cfg : Config) (b : StateBucket) : Decidable (BucketWf cfg b) := by
  unfold BucketWf; infer_instance

/-- Every fragment stored in the bucket at position `k` (counting from
`k0`) carries that bucket's index as its `bucket_id`. -/
def BucketIdsFrom : Nat → List StateBucket → Prop
  | _, [] => True
  | k, b :: bs => (∀ f ∈ b.fragments, f.bucket_id = k) ∧ BucketIdsFrom (k + 1) bs

instance instDecBucketIdsFrom : (k : Nat) → (bs : List StateBucket) →
    Decidable (BucketIdsFrom k bs)
  | _, [] => inferInstanceAs (Decidable True)
  | k, b :: bs =>
    haveI := instDecBucketIdsFrom (k + 1) bs
    inferInstanceAs (Decidable (_ ∧ _))

/-- A bucket that the mapper abandoned: if it may still be filled, its
aligned fill level has reached the capacity (the mapper only opens a new
bucket when no aligned space remains or filling was disabled). -/
def ClosedOk (cfg : Config) (b : StateBucket) : Prop :=
  b.able_to_fill = true →
  b.bucket_size ≤ roundToMultiple b.filled_size cfg.alignment true

instance (cfg : Config) (b : StateBucket) : Decidable (ClosedOk cfg b) := by
  unfold ClosedOk; infer_instance

/-- All buckets except the final one are `ClosedOk`: the mapper fills a
bucket up to its (aligned) capacity before opening the next one, except
for buckets whose filling was explicitly disabled. -/
def AllClosedButLast (cfg : Config) (bs : List StateBucket) : Prop :=
  ∀ b ∈ bs.dropLast, ClosedOk cfg b

instance (cfg : Config) (bs : List StateBucket) :
    Decidable (AllClosedButLast cfg bs) := by
  unfold AllClosedButLast; infer_instance

/-- Global invariant on the mapper's bucket list. -/
def MapperInv (cfg : Config) (bs : List StateBucket) : Prop :=
  (∀ b ∈ bs, BucketWf cfg b) ∧ BucketIdsFrom 0 bs ∧ AllClosedButLast cfg bs

instance (cfg : Config) (bs : List StateBucket) : Decidable (MapperInv cfg bs) := by
  unfold MapperInv; infer_instance

/-! ### Arithmetic facts about `roundToMultiple` -/

theorem roundToMultiple_up_eq (n A : Nat) :
    roundToMultiple n A true = (n + A - 1) / A * A := rfl

theorem roundToMultiple_down_eq (n A : Nat) :
    roundToMultiple n A false = n / A * A := rfl

theorem roundToMultiple_le_self (n A : Nat) (hA : 1 ≤ A) :
    n ≤ roundToMultiple n A true := by
  rw [roundToMultiple_up_eq, Nat.mul_comm]
  have h := Nat.div_add_mod (n + A - 1) A
  have h2 : (n + A - 1) % A < A := Nat.mod_lt _ hA
  omega

theorem roundToMultiple_dvd (n A : Nat) (u : Bool) : A ∣ roundToMultiple n A u :=
  dvd_mul_left A _

theorem roundToMultiple_zero (A : Nat) : roundToMultiple 0 A true = 0 := by
  rw [roundToMultiple_up_eq]
  rcases Nat.eq_zero_or_pos A with h | h
  · simp [h]
  · rw [Nat.div_eq_of_lt (by omega)]
    simp

theorem roundToMultiple_of_dvd (n A : Nat) (hA : 1 ≤ A) (h : A ∣ n) :
    roundToMultiple n A false = n := by
  rw [roundToMultiple_down_eq]
  obtain ⟨c, rfl⟩ := h
  rw [Nat.mul_div_cancel_left _ hA, Nat.mul_comm]

/-! ### Chain lemmas -/

theorem paramChainP_le {s n : Nat} {fs : List ParameterFragment}
    (h : paramChainP s n fs) : s ≤ n := by
  induction fs generalizing s with
  | nil => exact Nat.le_of_eq h
  | cons f fs ih =>
    obtain ⟨h1, h2, h3⟩ := h
    exact le_trans (le_of_lt h2) (ih h3)

theorem paramChainP_append {s m n : Nat} {fs gs : List ParameterFragment}
    (h1 : paramChainP s m fs) (h2 : paramChainP m n gs) :
    paramChainP s n (fs ++ gs) := by
  induction fs generalizing s with
  | nil =>
    have hsm : s = m := h1
    subst hsm
    simpa using h2
  | cons f fs ih =>
    obtain ⟨ha, hb, hc⟩ := h1
    exact ⟨ha, hb, ih hc⟩

theorem bucketChainP_concat {A cap fill fill' : Nat}
    {fs : List ParameterFragment} {f : ParameterFragment}
    (h : bucketChainP A cap fill fs fill')
    (h1 : f.bucket_range.1 = roundToMultiple fill' A true)
    (h2 : f.bucket_range.1 < f.bucket_range.2) (h3 : f.bucket_range.2 ≤ cap) :
    bucketChainP A cap fill (fs ++ [f]) f.bucket_range.2 := by
  induction fs generalizing fill with
  | nil =>
    have hf : fill = fill' := h
    subst hf
    exact ⟨h1, h2, h3, rfl⟩
  | cons g gs ih =>
    obtain ⟨ha, hb, hc, hd⟩ := h
    exact ⟨ha, hb, hc, ih hd⟩

theorem bucketChainP_ranges {A cap fill fill' : Nat}
    {fs : List ParameterFragment}
    (h : bucketChainP A cap fill fs fill') :
    ∀ f ∈ fs, A ∣ f.bucket_range.1 ∧ f.bucket_range.1 < f.bucket_range.2 ∧
      f.bucket_range.2 ≤ cap := by
  induction fs generalizing fill with
  | nil => intro f hf; cases hf
  | cons g gs ih =>
    obtain ⟨ha, hb, hc, hd⟩ := h
    intro f hf
    rcases List.mem_cons.mp hf with rfl | hf
    · exact ⟨ha ▸ roundToMultiple_dvd _ _ _, hb, hc⟩
    · exact ih hd f hf

theorem coveredCount_eq_of_paramChainP :
    ∀ {s n : Nat} {fs : List ParameterFragment}, paramChainP s n fs →
    ∀ i, (fs.countP (fun f => decide (f.param_range.1 ≤ i ∧ i < f.param_range.2))) =
      if s ≤ i ∧ i < n then 1 else 0 := by
  intro s n fs
  induction fs generalizing s with
  | nil =>
    intro h i
    have hsn : s = n := h
    subst hsn
    rw [List.countP_nil, if_neg (by omega)]
  | cons f fs ih =>
    intro h i
    obtain ⟨h1, h2, h3⟩ := h
    have hn := paramChainP_le h3
    rw [List.countP_cons, ih h3 i]
    simp only [decide_eq_true_eq]
    subst h1
    by_cases hc : f.param_range.1 ≤ i ∧ i < f.param_range.2
    · rw [if_neg (by omega), if_pos hc, if_pos (by omega)]
    · by_cases hd : f.param_range.2 ≤ i ∧ i < n
      · rw [if_pos hd, if_neg hc, if_pos (by omega)]
      · rw [if_neg hd, if_neg hc, if_neg (by omega)]

/-! ### Structure lemmas for the mapper invariant -/

theorem updateLast_concat (l : List StateBucket) (a b : StateBucket) :
    updateLast (l ++ [a]) b = l ++ [b] := by
  simp [updateLast]

theorem bucketIdsFrom_concat (k : Nat) (l : List StateBucket) (b : StateBucket) :
    BucketIdsFrom k (l ++ [b]) ↔
      (BucketIdsFrom k l ∧ ∀ f ∈ b.fragments, f.bucket_id = k + l.length) := by
  induction l generalizing k with
  | nil => simp [BucketIdsFrom]
  | cons a l ih =>
    simp only [List.cons_append, BucketIdsFrom, List.append_eq, ih (k + 1),
      List.length_cons]
    constructor
    · rintro ⟨h1, h2, h3⟩
      exact ⟨⟨h1, h2⟩, fun f hf => by rw [h3 f hf]; omega⟩
    · rintro ⟨⟨h1, h2⟩, h3⟩
      exact ⟨h1, h2, fun f hf => by rw [h3 f hf]; omega⟩

theorem allClosedButLast_concat (cfg : Config) (l : List StateBucket) (a : StateBucket) :
    AllClosedButLast cfg (l ++ [a]) ↔ ∀ b ∈ l, ClosedOk cfg b := by
  unfold AllClosedButLast
  rw [List.dropLast_concat]

/-- Replacing the trailing bucket preserves the mapper invariant provided
the replacement is well-formed and its fragments carry the right id. -/
theorem mapperInv_place (cfg : Config) (init : List StateBucket) (last b' : StateBucket)
    (hinv : MapperInv cfg (init ++ [last])) (hb' : BucketWf cfg b')
    (hids : ∀ f ∈ b'.fragments, f.bucket_id = init.length) :
    MapperInv cfg (init ++ [b']) := by
  obtain ⟨hwf, hid, hcl⟩ := hinv
  refine ⟨?_, ?_, ?_⟩
  · intro b hb
    rcases List.mem_append.mp hb with hb | hb
    · exact hwf b (List.mem_append.mpr (Or.inl hb))
    · rw [List.mem_singleton.mp hb]
      exact hb'
  · exact (bucketIdsFrom_concat 0 init b').mpr
      ⟨((bucketIdsFrom_concat 0 init last).mp hid).1,
        fun f hf => by rw [hids f hf]; omega⟩
  · exact (allClosedButLast_concat cfg init b').mpr
      ((allClosedButLast_concat cfg init last).mp hcl)

/-- Appending a fresh trailing bucket preserves the mapper invariant
provided the abandoned bucket is `ClosedOk`. -/
theorem mapperInv_open (cfg : Config) (init : List StateBucket) (last b' : StateBucket)
    (hinv : MapperInv cfg (init ++ [last])) (hclosed : ClosedOk cfg last)
    (hb' : BucketWf cfg b')
    (hids : ∀ f ∈ b'.fragments, f.bucket_id = init.length + 1) :
    MapperInv cfg ((init ++ [last]) ++ [b']) := by
  obtain ⟨hwf, hid, hcl⟩ := hinv
  refine ⟨?_, ?_, ?_⟩
  · intro b hb
    rcases List.mem_append.mp hb with hb | hb
    · exact hwf b hb
    · rw [List.mem_singleton.mp hb]
      exact hb'
  · refine (bucketIdsFrom_concat 0 (init ++ [last]) b').mpr ⟨hid, fun f hf => ?_⟩
    rw [hids f hf, List.length_append, List.length_singleton]
    omega
  · refine (allClosedButLast_concat cfg (init ++ [last]) b').mpr ?_
    intro b hb
    rcases List.mem_append.mp hb with hb | hb
    · exact (allClosedButLast_concat cfg init last).mp hcl b hb
    · rw [List.mem_singleton.mp hb]
      exact hclosed

/-! ### Facts about a freshly built fragment -/

theorem mkParamFragment_param_group_id (cfg : Config) (pg pid bid ps bstart fsize S : Nat) :
    (mkParamFragment cfg pg pid bid ps bstart fsize S).param_group_id = pg := rfl

theorem mkParamFragment_param_id (cfg : Config) (pg pid bid ps bstart fsize S : Nat) :
    (mkParamFragment cfg pg pid bid ps bstart fsize S).param_id = pid := rfl

theorem mkParamFragment_bucket_id (cfg : Config) (pg pid bid ps bstart fsize S : Nat) :
    (mkParamFragment cfg pg pid bid ps bstart fsize S).bucket_id = bid := rfl

theorem mkParamFragment_param_range (cfg : Config) (pg pid bid ps bstart fsize S : Nat) :
    (mkParamFragment cfg pg pid bid ps bstart fsize S).param_range = (ps, ps + fsize) := rfl

theorem mkParamFragment_bucket_range (cfg : Config) (pg pid bid ps bstart fsize S : Nat) :
    (mkParamFragment cfg pg pid bid ps bstart fsize S).bucket_range = (bstart, bstart + fsize) :=
  rfl

theorem mkParamFragment_shardConsistent (cfg : Config) (pg pid bid ps bstart fsize S : Nat) :
    ShardConsistent cfg.distributedRank S (mkParamFragment cfg pg pid bid ps bstart fsize S) :=
  rfl

theorem mkParamFragment_lenWf (cfg : Config) (pg pid bid ps bstart fsize S : Nat) :
    FragLenWf (mkParamFragment cfg pg pid bid ps bstart fsize S) := by
  constructor
  · rw [mkParamFragment_param_range]
    exact Nat.le_add_right _ _
  · rw [mkParamFragment_param_range, mkParamFragment_bucket_range]
    omega

/-- Placing a fragment at the aligned fill offset keeps a bucket
well-formed. -/
theorem bucketWf_applyFragment (cfg : Config) (b : StateBucket) (pg pid bid ps fsize : Nat)
    (hwf : BucketWf cfg b) (hpos : 0 < fsize)
    (hcap : fsize ≤ b.bucket_size - roundToMultiple b.filled_size cfg.alignment true) :
    BucketWf cfg (applyFragment b
      (mkParamFragment cfg pg pid bid ps
        (roundToMultiple b.filled_size cfg.alignment true) fsize b.shard_size)) := by
  obtain ⟨hsz, hsh, hchain, hfr⟩ := hwf
  refine ⟨hsz, hsh, ?_, ?_⟩
  · show bucketChainP cfg.alignment b.bucket_size 0 (b.fragments ++ [_]) _
    have hbr := mkParamFragment_bucket_range cfg pg pid bid ps
      (roundToMultiple b.filled_size cfg.alignment true) fsize b.shard_size
    have h2 := bucketChainP_concat (f := mkParamFragment cfg pg pid bid ps
        (roundToMultiple b.filled_size cfg.alignment true) fsize b.shard_size)
      hchain (by rw [hbr]) (by rw [hbr]; omega) (by rw [hbr]; simp only; omega)
    rw [hbr] at h2
    exact h2
  · intro f hf
    rcases List.mem_append.mp hf with hf | hf
    · exact hfr f hf
    · rw [List.mem_singleton.mp hf]
      exact ⟨mkParamFragment_shardConsistent _ _ _ _ _ _ _ _,
        mkParamFragment_lenWf _ _ _ _ _ _ _ _⟩

/-! ### Master invariant of the fragment mapper loop -/

theorem newBucket_bucket_size (cfg : Config) (off : Nat) :
    (newBucket cfg off).bucket_size = cfg.defaultShardSize * cfg.distributedSize := rfl

theorem newBucket_shard_size (cfg : Config) (off : Nat) :
    (newBucket cfg off).shard_size = cfg.defaultShardSize := rfl

theorem newBucket_filled_size (cfg : Config) (off : Nat) :
    (newBucket cfg off).filled_size = 0 := rfl

theorem newBucket_fragments (cfg : Config) (off : Nat) :
    (newBucket cfg off).fragments = [] := rfl

theorem initLoop_spec (cfg : Config) (pg pid n : Nat)
    (hA : 1 ≤ cfg.alignment) (hW : 1 ≤ cfg.distributedSize)
    (hS : 1 ≤ cfg.defaultShardSize) :
    ∀ (gas s : Nat) (buckets : List StateBucket),
      n - s ≤ gas → s ≤ n → buckets ≠ [] → MapperInv cfg buckets →
      (initLoop cfg pg pid n gas s buckets).1 ≠ [] ∧
      MapperInv cfg (initLoop cfg pg pid n gas s buckets).1 ∧
      buckets.length ≤ (initLoop cfg pg pid n gas s buckets).1.length ∧
      paramChainP s n (initLoop cfg pg pid n gas s buckets).2 ∧
      (∀ f ∈ (initLoop cfg pg pid n gas s buckets).2,
        f.param_group_id = pg ∧ f.param_id = pid ∧
        f.bucket_id < (initLoop cfg pg pid n gas s buckets).1.length ∧
        ShardConsistent cfg.distributedRank cfg.defaultShardSize f ∧
        FragLenWf f ∧
        f.bucket_range.2 ≤ cfg.defaultShardSize * cfg.distributedSize) := by
  intro gas
  induction gas with
  | zero =>
    intro s buckets hgas hs hne hinv
    have hsn : s = n := by omega
    subst hsn
    simp only [initLoop]
    exact ⟨hne, hinv, le_refl _, rfl, fun f hf => absurd hf (List.not_mem_nil f)⟩
  | succ gas ih =>
    intro s buckets hgas hs hne hinv
    by_cases hlt : s < n
    · obtain ⟨init, last, rfl⟩ := (List.eq_nil_or_concat' buckets).resolve_left hne
      have hlastwf : BucketWf cfg last :=
        hinv.1 last (List.mem_append.mpr (Or.inr (List.mem_singleton.mpr rfl)))
      simp only [initLoop, if_pos hlt, List.getLastD_concat]
      by_cases hcond :
          min (n - s) (last.bucket_size -
            roundToMultiple last.filled_size cfg.alignment true) = 0 ∨
          last.able_to_fill = false
      · rw [if_pos hcond]
        -- a fresh bucket is opened and the fragment lands at its start
        have hclosed : ClosedOk cfg last := by
          intro hable
          rcases hcond with hcond | hcond
          · have h1 := roundToMultiple_le_self last.filled_size cfg.alignment hA
            omega
          · rw [hable] at hcond
            cases hcond
        simp only [newBucket_bucket_size, newBucket_shard_size, newBucket_filled_size,
          roundToMultiple_zero, Nat.sub_zero]
        have hprod : 1 ≤ cfg.defaultShardSize * cfg.distributedSize :=
          Nat.one_le_iff_ne_zero.mpr (Nat.mul_ne_zero (by omega) (by omega))
        have hnf : ¬ min (n - s) (cfg.defaultShardSize * cfg.distributedSize) = 0 := by
          omega
        rw [if_neg hnf]
        set off := last.contiguous_buffer_offset + last.bucket_size with hoff
        set fsize := min (n - s) (cfg.defaultShardSize * cfg.distributedSize) with hfs
        set frag := mkParamFragment cfg pg pid (init ++ [last]).length s 0 fsize
          cfg.defaultShardSize with hfrag
        have hfpos : 0 < fsize := by omega
        have hnbwf : BucketWf cfg (newBucket cfg off) :=
          ⟨rfl, rfl, rfl, fun f hf => absurd hf (List.not_mem_nil f)⟩
        have hbwf : BucketWf cfg (applyFragment (newBucket cfg off) frag) := by
          have e1 : roundToMultiple (newBucket cfg off).filled_size cfg.alignment true
              = 0 := roundToMultiple_zero _
          have e2 : (newBucket cfg off).shard_size = cfg.defaultShardSize := rfl
          have h := bucketWf_applyFragment cfg (newBucket cfg off) pg pid
            (init ++ [last]).length s fsize hnbwf hfpos
            (by rw [e1]; show fsize ≤ cfg.defaultShardSize * cfg.distributedSize - 0; omega)
          rw [e1, e2] at h
          exact h
        have hfragsid : ∀ f ∈ (applyFragment (newBucket cfg off) frag).fragments,
            f.bucket_id = init.length + 1 := by
          intro f hf
          simp only [applyFragment, newBucket_fragments, List.nil_append,
            List.mem_singleton] at hf
          rw [hf, hfrag, mkParamFragment_bucket_id, List.length_append,
            List.length_singleton]
        have hinv' : MapperInv cfg ((init ++ [last]) ++ [applyFragment (newBucket cfg off) frag]) :=
          mapperInv_open cfg init last _ hinv hclosed hbwf hfragsid
        have hrec := ih (s + fsize) ((init ++ [last]) ++ [applyFragment (newBucket cfg off) frag])
          (by omega) (by omega) (by simp) hinv'
        obtain ⟨r1, r2, r3, r4, r5⟩ := hrec
        have hpr : frag.param_range = (s, s + fsize) := by
          rw [hfrag, mkParamFragment_param_range]
        have hbr : frag.bucket_range = (0, 0 + fsize) := by
          rw [hfrag, mkParamFragment_bucket_range]
        refine ⟨r1, r2, ?_, ?_, ?_⟩
        · refine le_trans ?_ r3
          simp only [List.length_append, List.length_singleton]
          omega
        · exact ⟨by rw [hpr], by rw [hpr]; exact Nat.lt_add_of_pos_right hfpos,
            by rw [hpr]; exact r4⟩
        · intro f hf
          rcases List.mem_cons.mp hf with rfl | hf
          · refine ⟨by rw [hfrag, mkParamFragment_param_group_id],
              by rw [hfrag, mkParamFragment_param_id], ?_, ?_, ?_, ?_⟩
            · rw [hfrag, mkParamFragment_bucket_id]
              refine Nat.lt_of_lt_of_le ?_ r3
              simp only [List.length_append, List.length_singleton]
              omega
            · rw [hfrag]
              exact mkParamFragment_shardConsistent _ _ _ _ _ _ _ _
            · rw [hfrag]
              exact mkParamFragment_lenWf _ _ _ _ _ _ _ _
            · rw [hbr]
              show 0 + fsize ≤ _
              omega
          · exact r5 f hf
      · rw [if_neg hcond]
        -- the fragment is placed into the current trailing bucket
        set bstart := roundToMultiple last.filled_size cfg.alignment true with hbs
        set fsize := min (n - s) (last.bucket_size - bstart) with hfs
        set frag := mkParamFragment cfg pg pid ((init ++ [last]).length - 1) s bstart fsize
          last.shard_size with hfrag
        have hfpos : 0 < fsize :=
          Nat.pos_of_ne_zero (fun h => hcond (Or.inl h))
        have hbwf : BucketWf cfg (applyFragment last frag) := by
          apply bucketWf_applyFragment cfg last pg pid ((init ++ [last]).length - 1) s fsize
            hlastwf hfpos
          omega
        rw [updateLast_concat]
        have hfragsid : ∀ f ∈ (applyFragment last frag).fragments,
            f.bucket_id = init.length := by
          intro f hf
          simp only [applyFragment, List.mem_append, List.mem_singleton] at hf
          rcases hf with hf | rfl
          · have hid := ((bucketIdsFrom_concat 0 init last).mp hinv.2.1).2 f hf
            omega
          · rw [hfrag, mkParamFragment_bucket_id]
            simp only [List.length_append, List.length_singleton]
            omega
        have hinv' : MapperInv cfg (init ++ [applyFragment last frag]) :=
          mapperInv_place cfg init last _ hinv hbwf hfragsid
        have hrec := ih (s + fsize) (init ++ [applyFragment last frag])
          (by omega) (by omega) (by simp) hinv'
        obtain ⟨r1, r2, r3, r4, r5⟩ := hrec
        have hpr : frag.param_range = (s, s + fsize) := by
          rw [hfrag, mkParamFragment_param_range]
        have hbr : frag.bucket_range = (bstart, bstart + fsize) := by
          rw [hfrag, mkParamFragment_bucket_range]
        refine ⟨r1, r2, ?_, ?_, ?_⟩
        · refine le_trans ?_ r3
          simp only [List.length_append, List.length_singleton]
          omega
        · exact ⟨by rw [hpr], by rw [hpr]; exact Nat.lt_add_of_pos_right hfpos,
            by rw [hpr]; exact r4⟩
        · intro f hf
          rcases List.mem_cons.mp hf with rfl | hf
          · refine ⟨by rw [hfrag, mkParamFragment_param_group_id],
              by rw [hfrag, mkParamFragment_param_id], ?_, ?_, ?_, ?_⟩
            · rw [hfrag, mkParamFragment_bucket_id]
              refine Nat.lt_of_lt_of_le ?_ r3
              simp only [List.length_append, List.length_singleton]
              omega
            · have h := mkParamFragment_shardConsistent cfg pg pid
                ((init ++ [last]).length - 1) s bstart fsize last.shard_size
              rw [hfrag, ← hlastwf.2.1]
              exact h
            · rw [hfrag]
              exact mkParamFragment_lenWf _ _ _ _ _ _ _ _
            · rw [hbr]
              show bstart + fsize ≤ _
              have hcapsz : last.bucket_size = cfg.defaultShardSize * cfg.distributedSize :=
                hlastwf.1
              omega
          · exact r5 f hf
    · have hsn : s = n := by omega
      subst hsn
      simp only [initLoop, if_neg hlt]
      exact ⟨hne, hinv, le_refl _, rfl, fun f hf => absurd hf (List.not_mem_nil f)⟩

/-! ### Wrappers: `_init_param_state` and `init_params` -/

theorem mapperInv_nil (cfg : Config) : MapperInv cfg [] :=
  ⟨fun b hb => absurd hb (List.not_mem_nil b), trivial,
   fun b hb => absurd hb (List.not_mem_nil b)⟩

theorem bucketWf_newBucket (cfg : Config) (off : Nat) : BucketWf cfg (newBucket cfg off) :=
  ⟨rfl, rfl, rfl, fun f hf => absurd hf (List.not_mem_nil f)⟩

theorem mapperInv_newBucket (cfg : Config) : MapperInv cfg [newBucket cfg 0] :=
  ⟨fun b hb => by rw [List.mem_singleton.mp hb]; exact bucketWf_newBucket cfg 0,
   ⟨fun f hf => absurd hf (List.not_mem_nil f), trivial⟩,
   fun b hb => absurd hb (List.not_mem_nil b)⟩

theorem initParamState_spec (cfg : Config) (pg pid n : Nat) (buckets : List StateBucket)
    (hA : 1 ≤ cfg.alignment) (hW : 1 ≤ cfg.distributedSize)
    (hS : 1 ≤ cfg.defaultShardSize) (hinv : MapperInv cfg buckets) :
    (initParamState cfg pg pid n buckets).1 ≠ [] ∧
    MapperInv cfg (initParamState cfg pg pid n buckets).1 ∧
    paramChainP 0 n (initParamState cfg pg pid n buckets).2 ∧
    (∀ f ∈ (initParamState cfg pg pid n buckets).2,
      f.param_group_id = pg ∧ f.param_id = pid ∧
      f.bucket_id < (initParamState cfg pg pid n buckets).1.length ∧
      ShardConsistent cfg.distributedRank cfg.defaultShardSize f ∧ FragLenWf f ∧
      f.bucket_range.2 ≤ cfg.defaultShardSize * cfg.distributedSize) := by
  simp only [initParamState]
  by_cases he : buckets.isEmpty = true
  · rw [if_pos he]
    have h := initLoop_spec cfg pg pid n hA hW hS n 0 [newBucket cfg 0]
      (by omega) (Nat.zero_le n) (by simp) (mapperInv_newBucket cfg)
    exact ⟨h.1, h.2.1, h.2.2.2.1, h.2.2.2.2⟩
  · rw [if_neg he]
    have hne : buckets ≠ [] := by
      intro hb
      rw [hb] at he
      exact he rfl
    have h := initLoop_spec cfg pg pid n hA hW hS n 0 buckets
      (by omega) (Nat.zero_le n) hne hinv
    exact ⟨h.1, h.2.1, h.2.2.2.1, h.2.2.2.2⟩

theorem initParams_fold_inv (cfg : Config)
    (hA : 1 ≤ cfg.alignment) (hW : 1 ≤ cfg.distributedSize)
    (hS : 1 ≤ cfg.defaultShardSize) :
    ∀ (ps : List (Nat × Nat × Nat))
      (start : List StateBucket × List (Nat × Nat × List ParameterFragment)),
      MapperInv cfg start.1 →
      MapperInv cfg (ps.foldl
        (fun acc p =>
          let r := initParamState cfg p.1 p.2.1 p.2.2 acc.1
          (r.1, acc.2 ++ [(p.1, p.2.1, r.2)])) start).1 := by
  intro ps
  induction ps with
  | nil => intro start h; exact h
  | cons p ps ih =>
    intro start h
    simp only [List.foldl_cons]
    exact ih _ (initParamState_spec cfg p.1 p.2.1 p.2.2 start.1 hA hW hS h).2.1

theorem initParams_inv (cfg : Config)
    (hA : 1 ≤ cfg.alignment) (hW : 1 ≤ cfg.distributedSize)
    (hS : 1 ≤ cfg.defaultShardSize) (ps : List (Nat × Nat × Nat)) :
    MapperInv cfg (initParams cfg ps []).1 :=
  initParams_fold_inv cfg hA hW hS ps ([], []) (mapperInv_nil cfg)

/-! ### Claim C1 -/

/-- C1: for every parameter, after its lazy initialization
(`_init_param_state`) the recorded `ParameterFragment` list partitions
the flattened parameter exactly: the `param_range`s chain contiguously
from `0` to the element count `n` (`paramChainP`), every index `i < n`
is covered by exactly one fragment and no index `≥ n` is covered
(`countP` characterization), and each fragment carries exactly one
`bucket_id`, which refers to an existing bucket of the resulting bucket
list. -/
theorem C1_fragment_partition (cfg : Config) (pg pid n : Nat) (buckets : List StateBucket)
    (hA : 1 ≤ cfg.alignment) (hW : 1 ≤ cfg.distributedSize)
    (hS : 1 ≤ cfg.defaultShardSize) (hinv : MapperInv cfg buckets) :
    paramChainP 0 n (initParamState cfg pg pid n buckets).2 ∧
    (∀ i : Nat,
      ((initParamState cfg pg pid n buckets).2.countP
        (fun f => decide (f.param_range.1 ≤ i ∧ i < f.param_range.2))) =
        if i < n then 1 else 0) ∧
    (∀ f ∈ (initParamState cfg pg pid n buckets).2,
      f.bucket_id < (initParamState cfg pg pid n buckets).1.length) := by
  obtain ⟨h1, h2, h3, h4⟩ := initParamState_spec cfg pg pid n buckets hA hW hS hinv
  refine ⟨h3, ?_, fun f hf => (h4 f hf).2.2.1⟩
  intro i
  rw [coveredCount_eq_of_paramChainP h3 i]
  by_cases h : i < n
  · rw [if_pos ⟨Nat.zero_le i, h⟩, if_pos h]
  · rw [if_neg (fun hc => h hc.2), if_neg h]

/-- Witness for C1 at a concrete configuration (alignment 4, world size
2, default shard size 8) and an 8-element parameter. -/
theorem C1_fragment_partition_witness :
    paramChainP 0 8 (initParamState ⟨4, 2, 0, 8⟩ 0 0 8 []).2 ∧
    ((initParamState ⟨4, 2, 0, 8⟩ 0 0 8 []).2.countP
      (fun f => decide (f.param_range.1 ≤ 3 ∧ 3 < f.param_range.2))) = 1 := by
  have h := C1_fragment_partition ⟨4, 2, 0, 8⟩ 0 0 8 []
    (by decide) (by decide) (by decide) (by decide)
  refine ⟨h.1, ?_⟩
  rw [h.2.1 3]
  decide

/-! ### Claim C3 -/

/-- C3: the fragment mapper places every fragment at the current bucket
fill level rounded up to a multiple of the alignment (`bucketChainP`,
whose start offsets are exactly `roundToMultiple fill alignment true`),
every bucket-start offset is a multiple of the alignment, no fragment
crosses its bucket's boundary (`bucket_range.2 ≤ bucket_size`), a new
bucket is opened only once the previous bucket's aligned fill level has
reached its capacity (`AllClosedButLast`, for buckets whose filling was
not explicitly disabled), and in the concrete scenario of two parameters
of 8 and 4 elements packed into a 16-element bucket with alignment 4,
parameter 1 occupies bucket offsets `[0, 8)`, parameter 2 occupies
`[8, 12)`, and `16 - 12 = 4` elements of padding remain unfilled. -/
theorem C3_bucket_packing (cfg : Config) (ps : List (Nat × Nat × Nat))
    (hA : 1 ≤ cfg.alignment) (hW : 1 ≤ cfg.distributedSize)
    (hS : 1 ≤ cfg.defaultShardSize) :
    (∀ b ∈ (initParams cfg ps []).1,
      bucketChainP cfg.alignment b.bucket_size 0 b.fragments b.filled_size) ∧
    (∀ b ∈ (initParams cfg ps []).1, ∀ f ∈ b.fragments,
      cfg.alignment ∣ f.bucket_range.1 ∧ f.bucket_range.2 ≤ b.bucket_size) ∧
    AllClosedButLast cfg (initParams cfg ps []).1 ∧
    (initParams (⟨4, 2, 0, 8⟩ : Config) [(0, 0, 8), (0, 1, 4)] []).1 =
      [{ bucket_size := 16, shard_size := 8, filled_size := 12, able_to_fill := true,
         contiguous_buffer_offset := 0,
         fragments :=
           [⟨0, 0, 0, (0, 8), (0, 8), true, some (0, 8), some (0, 8), some (0, 8)⟩,
            ⟨0, 1, 0, (0, 4), (8, 12), false, none, none, none⟩] }] := by
  obtain ⟨hwf, hid, hcl⟩ := initParams_inv cfg hA hW hS ps
  refine ⟨fun b hb => (hwf b hb).2.2.1, fun b hb f hf => ?_, hcl, by decide⟩
  have h := bucketChainP_ranges (hwf b hb).2.2.1 f hf
  exact ⟨h.1, h.2.2⟩

/-- Witness for C3 at the scenario configuration. -/
theorem C3_bucket_packing_witness :
    AllClosedButLast (⟨4, 2, 0, 8⟩ : Config)
      (initParams ⟨4, 2, 0, 8⟩ [(0, 0, 8), (0, 1, 4)] []).1 ∧
    (∀ b ∈ (initParams (⟨4, 2, 0, 8⟩ : Config) [(0, 0, 8), (0, 1, 4)] []).1,
      bucketChainP 4 b.bucket_size 0 b.fragments b.filled_size) := by
  have h := C3_bucket_packing ⟨4, 2, 0, 8⟩ [(0, 0, 8), (0, 1, 4)]
    (by decide) (by decide) (by decide)
  exact ⟨h.2.2.1, h.1⟩

/-! ### Claim C6 -/

theorem alignmentOf_pos (d : AdamDtype) : 1 ≤ alignmentOf d := by
  cases d <;> decide

theorem alignmentOf_dvd_defaultShardSizeOf (d : AdamDtype) (cap W : Nat) :
    alignmentOf d ∣ defaultShardSizeOf d cap W := by
  have h : defaultShardSizeOf d cap W =
      max (roundToMultiple (1024 * 1024 * cap / dtypeSize d / W) (alignmentOf d) false)
        (alignmentOf d) := rfl
  rw [h]
  rcases max_choice
    (roundToMultiple (1024 * 1024 * cap / dtypeSize d / W) (alignmentOf d) false)
    (alignmentOf d) with hm | hm
  · rw [hm]
    exact roundToMultiple_dvd _ _ _
  · rw [hm]

theorem alignmentOf_le_defaultShardSizeOf (d : AdamDtype) (cap W : Nat) :
    alignmentOf d ≤ defaultShardSizeOf d cap W :=
  le_max_right _ _

/-- C6: with the constructor's sizing (source lines 620-627 and
1131-1146), every bucket ever created satisfies: the alignment unit is
`128` bytes divided by the gradient-sync datatype width, the shard size
equals the bucket size divided by the distributed world size rounded
down to a multiple of the alignment unit, the shard size is bounded
below by (and is a multiple of) one alignment unit, and consequently
the bucket size equals shard size times world size. -/
theorem C6_shard_size (d : AdamDtype) (cap W rank : Nat) (hW : 1 ≤ W)
    (ps : List (Nat × Nat × Nat)) :
    (mkConfig d cap W rank).alignment = 128 / dtypeSize d ∧
    ∀ b ∈ (initParams (mkConfig d cap W rank) ps []).1,
      b.bucket_size = b.shard_size * W ∧
      b.shard_size = roundToMultiple (b.bucket_size / W) (128 / dtypeSize d) false ∧
      128 / dtypeSize d ≤ b.shard_size ∧
      128 / dtypeSize d ∣ b.shard_size := by
  have hA : 1 ≤ (mkConfig d cap W rank).alignment := alignmentOf_pos d
  have hS : 1 ≤ (mkConfig d cap W rank).defaultShardSize :=
    le_trans (alignmentOf_pos d) (alignmentOf_le_defaultShardSizeOf d cap W)
  obtain ⟨hwf, hid, hcl⟩ := initParams_inv (mkConfig d cap W rank) hA hW hS ps
  refine ⟨rfl, fun b hb => ?_⟩
  obtain ⟨hbs, hsh, hch, hfr⟩ := hwf b hb
  have hAeq : alignmentOf d = 128 / dtypeSize d := rfl
  have hWeq : (mkConfig d cap W rank).distributedSize = W := rfl
  have hdss : (mkConfig d cap W rank).defaultShardSize = defaultShardSizeOf d cap W := rfl
  rw [hWeq, hdss] at hbs
  rw [hdss] at hsh
  refine ⟨?_, ?_, ?_, ?_⟩
  · rw [hbs, hsh]
  · rw [hbs, hsh, Nat.mul_div_cancel _ (by omega : 0 < W), ← hAeq,
      roundToMultiple_of_dvd _ _ (alignmentOf_pos d)
        (alignmentOf_dvd_defaultShardSizeOf d cap W)]
  · rw [hsh, ← hAeq]
    exact alignmentOf_le_defaultShardSizeOf d cap W
  · rw [hsh, ← hAeq]
    exact alignmentOf_dvd_defaultShardSizeOf d cap W

/-- Witness for C6 at the default 100 MB bucket, FP32, world size 2. -/
theorem C6_shard_size_witness :
    (mkConfig .float32 100 2 0).alignment = 128 / dtypeSize .float32 ∧
    ((initParams (mkConfig .float32 100 2 0) [(0, 0, 10)] []).1.headD default).bucket_size =
      ((initParams (mkConfig .float32 100 2 0) [(0, 0, 10)] []).1.headD default).shard_size
        * 2 := by
  have h := C6_shard_size .float32 100 2 0 (by decide) [(0, 0, 10)]
  refine ⟨h.1, ?_⟩
  have hmem : (initParams (mkConfig .float32 100 2 0) [(0, 0, 10)] []).1.headD default ∈
      (initParams (mkConfig .float32 100 2 0) [(0, 0, 10)] []).1 := by decide
  exact (h.2 _ hmem).1

/-! ### Claim C7 -/

/-- Counterexample to C7: one parameter of 10 elements, world size 2,
FP32 gradients at the default 100 MB bucket capacity (a single bucket is
used).  The claim asserts the shard size is 5 elements per rank and that
rank 1's shard covers parameter elements `[5, 10)`.  In the code the
shard size is the configured default shard size (13107200 elements
here; always at least one 32-element alignment unit, never 5), and on
rank 1 the parameter's only fragment is not in the local shard at all:
rank 1 owns no element of the parameter. -/
theorem C7_counterexample :
    (initParamState (mkConfig .float32 100 2 1) 0 0 10 []).1.length = 1 ∧
    (∀ b ∈ (initParamState (mkConfig .float32 100 2 1) 0 0 10 []).1,
      b.shard_size ≠ 5) ∧
    ((initParamState (mkConfig .float32 100 2 1) 0 0 10 []).2.all
      (fun f => !f.in_local_shard)) = true := by
  decide

/-- C7 amended: with one 10-element parameter at world size 2 and a
bucket capacity large enough for a single bucket, the bucket's shard
size is the configured default shard size (13107200 elements at the
default 100 MB FP32 capacity), the parameter's single fragment occupies
bucket offsets `[0, 10)`, on rank 0 that fragment lies entirely inside
the local shard and its `shard_param_range` covers all of `[0, 10)`,
and on rank 1 the fragment is not in the local shard (rank 1 owns no
elements). -/
theorem C7_amended :
    (initParamState (mkConfig .float32 100 2 0) 0 0 10 []).2 =
      [⟨0, 0, 0, (0, 10), (0, 10), true, some (0, 10), some (0, 10), some (0, 10)⟩] ∧
    (initParamState (mkConfig .float32 100 2 1) 0 0 10 []).2 =
      [⟨0, 0, 0, (0, 10), (0, 10), false, none, none, none⟩] ∧
    (∀ b ∈ (initParamState (mkConfig .float32 100 2 0) 0 0 10 []).1,
      b.shard_size = 13107200 ∧ b.bucket_size = 13107200 * 2) := by
  decide

/-! ### Gradient synchronization engine

The engine is modelled at `distributed_size = redundant_size = 1` and
without a contiguous gradient buffer: the source then skips both
collectives (`_start_bucket_grad_sync` lines 1527-1528 alias the
communication buffer to the accumulation bucket) and the local shard is
the whole bucket, so gradient accumulation is exact and local. -/

/-- Device buffers: one abstract cell value per element slot. -/
def Buf : Type := Nat → Int

def zeroBuf : Buf := fun _ => 0

def optVal (o : Option Buf) (k : Nat) : Int := (o.getD zeroBuf) k

/-- Pointwise function update. -/
def setAt {α : Type} (m : Nat → α) (i : Nat) (v : α) : Nat → α :=
  fun j => if j = i then v else m j

/-- `dst[a : a+len].add_(src[b : b+len])`. -/
def addSlice (dst : Buf) (dstStart : Nat) (src : Buf) (srcStart len : Nat) : Buf :=
  fun k =>
    if dstStart ≤ k ∧ k < dstStart + len then dst k + src (srcStart + (k - dstStart))
    else dst k

/-- `dst[a : a+len].copy_(src[b : b+len])`. -/
def overwriteSlice (dst : Buf) (dstStart : Nat) (src : Buf) (srcStart len : Nat) : Buf :=
  fun k =>
    if dstStart ≤ k ∧ k < dstStart + len then src (srcStart + (k - dstStart))
    else dst k

/-- Source enum `GradientStatus` (lines 431-441). -/
inductive GradientStatus
  | READY
  | PARTIALLY_FILLED
  | FULLY_FILLED
  | SYNCING
deriving DecidableEq

/-- Source class `GradientBucket` (lines 443-456); `grads_generated` is
a set of parameters, modelled as a duplicate-free list of ids. -/
structure GradientBucket where
  grads_shard : Option Buf
  grads_bucket : Option Buf
  sync_grads_shard : Option Buf
  status : GradientStatus
  grads_generated : List Nat

/-- `GradientBucket.__init__` (lines 446-456). -/
def freshGradientBucket : GradientBucket :=
  { grads_shard := none, grads_bucket := none, sync_grads_shard := none,
    status := .READY, grads_generated := [] }

/-- `self._grads_buckets` (a `defaultdict(GradientBucket)`, line 634)
plus the per-parameter `param.grad` slots.  `touched` is the
defaultdict's key set: every id accessed so far; an id outside
`touched` maps to the fresh default bucket in reachable states. -/
structure GradState where
  gradsBuckets : Nat → GradientBucket
  touched : List Nat
  paramGrads : Nat → Option Buf

def initialGradState : GradState :=
  { gradsBuckets := fun _ => freshGradientBucket, touched := [],
    paramGrads := fun _ => none }

/-- Defaultdict key-set insertion on access. -/
def touch (i : Nat) (t : List Nat) : List Nat := if i ∈ t then t else i :: t

/-- One bucket's part of `_finish_bucket_grad_sync` (lines 1583-1597):
for a `SYNCING` bucket, accumulate the reduced shard into the persistent
shard (`grads_shard.add_` when present, plain assignment otherwise),
release the transient buffers, and flip to `READY`. -/
def finishOne (b : GradientBucket) : GradientBucket :=
  if b.status = .SYNCING then
    { b with
      grads_shard :=
        match b.grads_shard with
        | none => b.sync_grads_shard
        | some s => some (fun k => s k + optVal b.sync_grads_shard k)
      grads_bucket := none
      sync_grads_shard := none
      status := .READY }
  else b

/-- Source `_finish_bucket_grad_sync` (lines 1578-1597): wait on the
communication stream, then finish every `SYNCING` bucket in the dict.
The per-bucket work is independent, so the source's sorted iteration
order is immaterial; the stream wait and the `_grad_norm` cache
invalidation carry no modelled state. -/
def finishBucketGradSync (st : GradState) : GradState :=
  { st with gradsBuckets := fun i =>
      if i ∈ st.touched then finishOne (st.gradsBuckets i) else st.gradsBuckets i }

/-- One bucket's setup in `_start_bucket_grad_sync` (lines 1521-1536) at
`distributed_size = 1`: mark `SYNCING`, clear the generated set, and let
the communication buffer alias the accumulation bucket; the
reduce-scatter (lines 1543-1559) and the redundant all-reduce (lines
1561-1576) are skipped for singleton groups. -/
def startOne (b : GradientBucket) : GradientBucket :=
  { b with
    status := .SYNCING
    grads_generated := []
    sync_grads_shard := b.grads_bucket }

/-- Source `_start_bucket_grad_sync` (lines 1499-1576) without a
contiguous grad buffer: first complete outstanding syncs (line 1513),
then initialize every listed bucket.  After the initial finish no bucket
passed by the source's callers is still `SYNCING`, so the per-bucket
re-finish check (line 1523) never fires for distinct ids and the
per-bucket setup commutes. -/
def startBucketGradSync (ids : List Nat) (st : GradState) : GradState :=
  let st := finishBucketGradSync st
  { st with gradsBuckets := fun i =>
      if i ∈ ids then startOne (st.gradsBuckets i) else st.gradsBuckets i }

/-- One fragment's part of `_grad_copy` (lines 1290-1329): finish an
in-flight sync of the target bucket, mark it `PARTIALLY_FILLED`, lazily
allocate the zero-filled accumulation buffer, and add the gradient slice
(`grad_out.add_(grad_in)`) when `param.grad` exists; with separate
gradient storage the `data_ptr` aliasing guard (line 1328) never fires.
`g` is `param.grad`, constant during the fragment loop. -/
def gradCopyFrag (g : Option Buf) (f : ParameterFragment) (st : GradState) : GradState :=
  let st := if (st.gradsBuckets f.bucket_id).status = .SYNCING
    then finishBucketGradSync st else st
  let b := st.gradsBuckets f.bucket_id
  let gb := match b.grads_bucket with
    | none => zeroBuf
    | some x => x
  let gb := match g with
    | none => gb
    | some grad =>
        addSlice gb f.bucket_range.1 grad f.param_range.1
          (f.bucket_range.2 - f.bucket_range.1)
  { st with
    gradsBuckets := setAt st.gradsBuckets f.bucket_id
      { b with status := .PARTIALLY_FILLED, grads_bucket := some gb }
    touched := touch f.bucket_id st.touched }

/-- Source `_grad_copy` (lines 1276-1332) for an initialized parameter:
copy every fragment's gradient slice into its bucket, then free the
parameter gradient (`param.grad = None`, line 1332). -/
def gradCopy (fragsOf : Nat → List ParameterFragment) (pid : Nat) (st : GradState) :
    GradState :=
  let g := st.paramGrads pid
  let st := (fragsOf pid).foldl (fun s f => gradCopyFrag g f s) st
  { st with paramGrads := setAt st.paramGrads pid none }

/-- The registration loop of `_try_start_bucket_grad_sync` (lines
1473-1487): record `pid` in the generated set of each of its buckets;
when the set reaches the bucket's fragment count, flip the bucket to
`FULLY_FILLED` and make sure its accumulation buffer exists. -/
def registerFrag (sb : List StateBucket) (pid : Nat) (f : ParameterFragment)
    (s : GradState) : GradState :=
  let b := s.gradsBuckets f.bucket_id
  let gen := if pid ∈ b.grads_generated then b.grads_generated
             else b.grads_generated ++ [pid]
  let b' := if gen.length = ((sb.getD f.bucket_id default).fragments).length then
      { b with
        grads_generated := gen
        status := .FULLY_FILLED
        grads_bucket := some (match b.grads_bucket with
          | none => zeroBuf
          | some x => x) }
    else { b with grads_generated := gen }
  { s with
    gradsBuckets := setAt s.gradsBuckets f.bucket_id b'
    touched := touch f.bucket_id s.touched }

def registerGenerated (sb : List StateBucket) (fragsOf : Nat → List ParameterFragment)
    (pid : Nat) (st : GradState) : GradState :=
  (fragsOf pid).foldl (fun s f => registerFrag sb pid f s) st

/-- Source `_try_start_bucket_grad_sync` (lines 1449-1497): register the
given parameters' generated gradients, then launch the reduction for
every `FULLY_FILLED` bucket in the dict, optionally skipping the
highest-index bucket. -/
def tryStartBucketGradSync (sb : List StateBucket) (fragsOf : Nat → List ParameterFragment)
    (pids : List Nat) (ignore_last : Bool) (st : GradState) : GradState :=
  let st := pids.foldl (fun s p => registerGenerated sb fragsOf p s) st
  let filled := st.touched.filter (fun i =>
    decide ((st.gradsBuckets i).status = .FULLY_FILLED) &&
    !(ignore_last && decide (i = sb.length - 1)))
  if filled.isEmpty then st else startBucketGradSync filled st

/-- Lines 1422-1426 of `_force_bucket_grad_sync`: collect every bucket
in the dict whose status is neither `READY` nor `SYNCING`. -/
def forceCollectIds (st : GradState) : List Nat :=
  st.touched.filter (fun i =>
    !(decide ((st.gradsBuckets i).status = .READY) ||
      decide ((st.gradsBuckets i).status = .SYNCING)))

/-- Lines 1427-1433: allocate missing accumulation buffers for the
collected buckets. -/
def forceAlloc (ids : List Nat) (st : GradState) : GradState :=
  { st with gradsBuckets := fun i =>
      if i ∈ ids then
        { st.gradsBuckets i with
          grads_bucket := some (match (st.gradsBuckets i).grads_bucket with
            | none => zeroBuf
            | some x => x) }
      else st.gradsBuckets i }

/-- Lines 1438-1447: access every state-bucket id in the defaultdict
(creating fresh entries) and replace still-missing local gradient shards
with zeros. -/
def forceZeroFill (sb : List StateBucket) (st : GradState) : GradState :=
  { st with
    touched := (List.range sb.length).foldl (fun t i => touch i t) st.touched
    gradsBuckets := fun i =>
      if i < sb.length then
        match (st.gradsBuckets i).grads_shard with
        | none => { st.gradsBuckets i with grads_shard := some zeroBuf }
        | some _ => st.gradsBuckets i
      else st.gradsBuckets i }

/-- Source `_force_bucket_grad_sync` (lines 1418-1447): start a sync for
every bucket that is neither `READY` nor `SYNCING` (allocating missing
accumulation buffers, line 1434: `if buckets: ...`), wait for every sync
to finish, then zero-fill missing shards. -/
def forceBucketGradSync (sb : List StateBucket) (st : GradState) : GradState :=
  let ids := forceCollectIds st
  let st := forceAlloc ids st
  let st := if ids.isEmpty then st else startBucketGradSync ids st
  forceZeroFill sb (finishBucketGradSync st)

/-- The autograd engine installing a freshly produced `param.grad`. -/
def setGrad (pid : Nat) (g : Buf) (st : GradState) : GradState :=
  { st with paramGrads := setAt st.paramGrads pid (some g) }

/-- One gradient accumulation round: each listed `(pid, g)` contribution
installs `param.grad` and runs `_grad_copy`; the round ends with
`_force_bucket_grad_sync`. -/
def runRound (sb : List StateBucket) (fragsOf : Nat → List ParameterFragment)
    (round : List (Nat × Buf)) (st : GradState) : GradState :=
  forceBucketGradSync sb
    (round.foldl (fun s c => gradCopy fragsOf c.1 (setGrad c.1 c.2 s)) st)

def runRounds (sb : List StateBucket) (fragsOf : Nat → List ParameterFragment)
    (rounds : List (List (Nat × Buf))) (st : GradState) : GradState :=
  rounds.foldl (fun s r => runRound sb fragsOf r s) st

/-! ### Specification of the accumulated gradient -/

/-- The value fragment `f` of gradient `g` contributes at position `k`
of bucket `i`. -/
def fragContrib (f : ParameterFragment) (g : Buf) (i k : Nat) : Int :=
  if f.bucket_id = i ∧ f.bucket_range.1 ≤ k ∧
      k < f.bucket_range.1 + (f.bucket_range.2 - f.bucket_range.1)
  then g (f.param_range.1 + (k - f.bucket_range.1)) else 0

def contribSum (fragsOf : Nat → List ParameterFragment) (round : List (Nat × Buf))
    (i k : Nat) : Int :=
  (round.map (fun c => ((fragsOf c.1).map (fun f => fragContrib f c.2 i k)).sum)).sum

def roundsContribSum (fragsOf : Nat → List ParameterFragment)
    (rounds : List (List (Nat × Buf))) (i k : Nat) : Int :=
  (rounds.map (fun r => contribSum fragsOf r i k)).sum

/-- Total pending gradient mass of a bucket at one position: the
persistent shard plus either the in-flight communication buffer (while
`SYNCING` it aliases the accumulation bucket) or the accumulation
bucket. -/
def bucketTotal (b : GradientBucket) (k : Nat) : Int :=
  optVal b.grads_shard k +
    (if b.status = .SYNCING then optVal b.sync_grads_shard k
     else optVal b.grads_bucket k)

/-- Bucket ids outside the defaultdict's key set still hold the default
fresh bucket. -/
def TouchedInv (st : GradState) : Prop :=
  ∀ i, i ∉ st.touched → st.gradsBuckets i = freshGradientBucket

/-- A `READY` bucket holds no transient buffers. -/
def CleanInv (st : GradState) : Prop :=
  ∀ i, (st.gradsBuckets i).status = .READY →
    (st.gradsBuckets i).grads_bucket = none ∧
    (st.gradsBuckets i).sync_grads_shard = none

/-! ### Engine lemmas: finish, start -/

theorem finishOne_status_ne (b : GradientBucket) : (finishOne b).status ≠ .SYNCING := by
  unfold finishOne
  by_cases h : b.status = .SYNCING
  · rw [if_pos h]
    intro hc
    cases hc
  · rw [if_neg h]
    exact h

theorem finishOne_total (b : GradientBucket) (k : Nat) :
    bucketTotal (finishOne b) k = bucketTotal b k := by
  by_cases h : b.status = .SYNCING
  · cases hs : b.grads_shard with
    | none => simp [finishOne, bucketTotal, optVal, zeroBuf, h, hs, Int.add_comm]
    | some s => simp [finishOne, bucketTotal, optVal, zeroBuf, h, hs]
  · simp [finishOne, bucketTotal, h]

theorem finishAll_gradsBuckets (st : GradState) (i : Nat) :
    (finishBucketGradSync st).gradsBuckets i =
      if i ∈ st.touched then finishOne (st.gradsBuckets i) else st.gradsBuckets i := rfl

theorem finishAll_touched (st : GradState) :
    (finishBucketGradSync st).touched = st.touched := rfl

theorem finishAll_paramGrads (st : GradState) :
    (finishBucketGradSync st).paramGrads = st.paramGrads := rfl

theorem finishAll_total (st : GradState) (i k : Nat) :
    bucketTotal ((finishBucketGradSync st).gradsBuckets i) k =
      bucketTotal (st.gradsBuckets i) k := by
  rw [finishAll_gradsBuckets]
  by_cases h : i ∈ st.touched
  · rw [if_pos h, finishOne_total]
  · rw [if_neg h]

theorem finishAll_touchedInv (st : GradState) (h : TouchedInv st) :
    TouchedInv (finishBucketGradSync st) := by
  intro i hi
  rw [finishAll_touched] at hi
  rw [finishAll_gradsBuckets, if_neg hi]
  exact h i hi

theorem finishOne_cleanOut (b : GradientBucket)
    (hb : b.status = .READY → b.grads_bucket = none ∧ b.sync_grads_shard = none) :
    (finishOne b).status = .READY →
      (finishOne b).grads_bucket = none ∧ (finishOne b).sync_grads_shard = none := by
  unfold finishOne
  by_cases h : b.status = .SYNCING
  · rw [if_pos h]
    intro _
    exact ⟨rfl, rfl⟩
  · rw [if_neg h]
    exact hb

theorem finishAll_cleanInv (st : GradState) (h : CleanInv st) :
    CleanInv (finishBucketGradSync st) := by
  intro i
  rw [finishAll_gradsBuckets]
  by_cases hi : i ∈ st.touched
  · rw [if_pos hi]
    exact finishOne_cleanOut _ (h i)
  · rw [if_neg hi]
    exact h i

theorem finishAll_not_syncing (st : GradState) (hTI : TouchedInv st) (i : Nat) :
    ((finishBucketGradSync st).gradsBuckets i).status ≠ .SYNCING := by
  rw [finishAll_gradsBuckets]
  by_cases hi : i ∈ st.touched
  · rw [if_pos hi]
    exact finishOne_status_ne _
  · rw [if_neg hi, hTI i hi]
    intro hc
    cases hc

theorem startOne_total (b : GradientBucket) (k : Nat) (h : b.status ≠ .SYNCING) :
    bucketTotal (startOne b) k = bucketTotal b k := by
  unfold startOne bucketTotal
  simp only
  rw [if_neg h]
  simp

theorem start_gradsBuckets (ids : List Nat) (st : GradState) (i : Nat) :
    (startBucketGradSync ids st).gradsBuckets i =
      if i ∈ ids then startOne ((finishBucketGradSync st).gradsBuckets i)
      else (finishBucketGradSync st).gradsBuckets i := rfl

theorem start_touched (ids : List Nat) (st : GradState) :
    (startBucketGradSync ids st).touched = st.touched := rfl

theorem start_paramGrads (ids : List Nat) (st : GradState) :
    (startBucketGradSync ids st).paramGrads = st.paramGrads := rfl

theorem start_total (ids : List Nat) (st : GradState) (hTI : TouchedInv st) (i k : Nat) :
    bucketTotal ((startBucketGradSync ids st).gradsBuckets i) k =
      bucketTotal (st.gradsBuckets i) k := by
  rw [start_gradsBuckets]
  by_cases hi : i ∈ ids
  · rw [if_pos hi, startOne_total _ _ (finishAll_not_syncing st hTI i), finishAll_total]
  · rw [if_neg hi, finishAll_total]

theorem start_touchedInv (ids : List Nat) (st : GradState) (hTI : TouchedInv st)
    (hids : ∀ i ∈ ids, i ∈ st.touched) : TouchedInv (startBucketGradSync ids st) := by
  intro i hi
  rw [start_touched] at hi
  rw [start_gradsBuckets, if_neg (fun hc => hi (hids i hc)), finishAll_gradsBuckets,
    if_neg hi]
  exact hTI i hi

theorem start_cleanInv (ids : List Nat) (st : GradState) (h : CleanInv st) :
    CleanInv (startBucketGradSync ids st) := by
  intro i
  rw [start_gradsBuckets]
  by_cases hi : i ∈ ids
  · rw [if_pos hi]
    intro hc
    cases hc
  · rw [if_neg hi]
    exact finishAll_cleanInv st h i

/-! ### Engine lemmas: gradient copy -/

theorem touch_mem (i : Nat) (t : List Nat) : i ∈ touch i t := by
  unfold touch
  by_cases h : i ∈ t
  · rw [if_pos h]
    exact h
  · rw [if_neg h]
    exact List.mem_cons_self _ _

theorem mem_touch_of_mem {j : Nat} (i : Nat) {t : List Nat} (h : j ∈ t) :
    j ∈ touch i t := by
  unfold touch
  by_cases hc : i ∈ t
  · rw [if_pos hc]
    exact h
  · rw [if_neg hc]
    exact List.mem_cons_of_mem _ h

theorem not_mem_touch {j i : Nat} {t : List Nat} (h : j ∉ touch i t) :
    j ∉ t ∧ j ≠ i := by
  constructor
  · exact fun hc => h (mem_touch_of_mem i hc)
  · intro hc
    subst hc
    exact h (touch_mem j t)

theorem gradCopyFrag_touched (g : Option Buf) (f : ParameterFragment) (st : GradState) :
    (gradCopyFrag g f st).touched = touch f.bucket_id st.touched := by
  simp only [gradCopyFrag]
  by_cases hc : (st.gradsBuckets f.bucket_id).status = .SYNCING
  · rw [if_pos hc, finishAll_touched]
  · rw [if_neg hc]

theorem gradCopyFrag_paramGrads (g : Option Buf) (f : ParameterFragment) (st : GradState) :
    (gradCopyFrag g f st).paramGrads = st.paramGrads := by
  simp only [gradCopyFrag]
  by_cases hc : (st.gradsBuckets f.bucket_id).status = .SYNCING
  · rw [if_pos hc, finishAll_paramGrads]
  · rw [if_neg hc]

theorem gradCopyFrag_gradsBuckets_ne (g : Option Buf) (f : ParameterFragment)
    (st : GradState) (j : Nat) (hj : j ≠ f.bucket_id) :
    (gradCopyFrag g f st).gradsBuckets j =
      (if (st.gradsBuckets f.bucket_id).status = .SYNCING
        then finishBucketGradSync st else st).gradsBuckets j := by
  simp only [gradCopyFrag, setAt]
  rw [if_neg hj]

theorem gradCopyFrag_gradsBuckets_self_none (f : ParameterFragment) (st : GradState)
    (b : GradientBucket)
    (hb : (if (st.gradsBuckets f.bucket_id).status = .SYNCING
        then finishBucketGradSync st else st).gradsBuckets f.bucket_id = b) :
    (gradCopyFrag none f st).gradsBuckets f.bucket_id =
      { grads_shard := b.grads_shard
        grads_bucket := some (match b.grads_bucket with | none => zeroBuf | some x => x)
        sync_grads_shard := b.sync_grads_shard
        status := .PARTIALLY_FILLED
        grads_generated := b.grads_generated } := by
  subst hb
  simp [gradCopyFrag, setAt]

theorem gradCopyFrag_gradsBuckets_self_some (f : ParameterFragment) (st : GradState)
    (grad : Buf) (b : GradientBucket)
    (hb : (if (st.gradsBuckets f.bucket_id).status = .SYNCING
        then finishBucketGradSync st else st).gradsBuckets f.bucket_id = b) :
    (gradCopyFrag (some grad) f st).gradsBuckets f.bucket_id =
      { grads_shard := b.grads_shard
        grads_bucket := some (addSlice
          (match b.grads_bucket with | none => zeroBuf | some x => x)
          f.bucket_range.1 grad f.param_range.1 (f.bucket_range.2 - f.bucket_range.1))
        sync_grads_shard := b.sync_grads_shard
        status := .PARTIALLY_FILLED
        grads_generated := b.grads_generated } := by
  subst hb
  simp [gradCopyFrag, setAt]

theorem gradCopyFrag_status_self (g : Option Buf) (f : ParameterFragment)
    (st : GradState) :
    ((gradCopyFrag g f st).gradsBuckets f.bucket_id).status = .PARTIALLY_FILLED := by
  cases g with
  | none => rw [gradCopyFrag_gradsBuckets_self_none f st _ rfl]
  | some grad => rw [gradCopyFrag_gradsBuckets_self_some f st grad _ rfl]

theorem gradCopyFrag_touchedInv (g : Option Buf) (f : ParameterFragment)
    (st : GradState) (hTI : TouchedInv st) : TouchedInv (gradCopyFrag g f st) := by
  intro j hj
  rw [gradCopyFrag_touched] at hj
  obtain ⟨hj1, hj2⟩ := not_mem_touch hj
  rw [gradCopyFrag_gradsBuckets_ne g f st j hj2]
  by_cases hc : (st.gradsBuckets f.bucket_id).status = .SYNCING
  · rw [if_pos hc, finishAll_gradsBuckets, if_neg hj1]
    exact hTI j hj1
  · rw [if_neg hc]
    exact hTI j hj1

theorem gradCopyFrag_cleanInv (g : Option Buf) (f : ParameterFragment)
    (st : GradState) (h : CleanInv st) : CleanInv (gradCopyFrag g f st) := by
  intro j
  by_cases hj : j = f.bucket_id
  · subst hj
    rw [gradCopyFrag_status_self]
    intro hc
    cases hc
  · rw [gradCopyFrag_gradsBuckets_ne g f st j hj]
    by_cases hc : (st.gradsBuckets f.bucket_id).status = .SYNCING
    · rw [if_pos hc]
      exact finishAll_cleanInv st h j
    · rw [if_neg hc]
      exact h j

theorem bucketTotal_partial (sh : Option Buf) (gb : Buf) (sync : Option Buf)
    (gen : List Nat) (k : Nat) :
    bucketTotal
      { grads_shard := sh
        grads_bucket := some gb
        sync_grads_shard := sync
        status := .PARTIALLY_FILLED
        grads_generated := gen } k = optVal sh k + gb k := by
  unfold bucketTotal
  simp [optVal]

theorem bucketTotal_not_syncing (b : GradientBucket) (k : Nat) (h : b.status ≠ .SYNCING) :
    bucketTotal b k = optVal b.grads_shard k + optVal b.grads_bucket k := by
  unfold bucketTotal
  rw [if_neg h]

theorem gradCopyFrag_total (g : Option Buf) (f : ParameterFragment) (st : GradState)
    (hTI : TouchedInv st) (i k : Nat) :
    bucketTotal ((gradCopyFrag g f st).gradsBuckets i) k =
      bucketTotal (st.gradsBuckets i) k +
        (match g with
         | none => 0
         | some grad => fragContrib f grad i k) := by
  have hmid : ∀ j, bucketTotal (((if (st.gradsBuckets f.bucket_id).status = .SYNCING
      then finishBucketGradSync st else st).gradsBuckets) j) k =
      bucketTotal (st.gradsBuckets j) k := by
    intro j
    by_cases hc : (st.gradsBuckets f.bucket_id).status = .SYNCING
    · rw [if_pos hc, finishAll_total]
    · rw [if_neg hc]
  have hns : (((if (st.gradsBuckets f.bucket_id).status = .SYNCING
      then finishBucketGradSync st else st).gradsBuckets) f.bucket_id).status ≠
      .SYNCING := by
    by_cases hc : (st.gradsBuckets f.bucket_id).status = .SYNCING
    · rw [if_pos hc]
      exact finishAll_not_syncing st hTI _
    · rw [if_neg hc]
      exact hc
  by_cases hi : i = f.bucket_id
  · subst hi
    rw [← hmid f.bucket_id]
    set b := (if (st.gradsBuckets f.bucket_id).status = .SYNCING
      then finishBucketGradSync st else st).gradsBuckets f.bucket_id with hbdef
    rw [bucketTotal_not_syncing b k hns]
    cases g with
    | none =>
      rw [gradCopyFrag_gradsBuckets_self_none f st b hbdef.symm, bucketTotal_partial]
      cases hgb : b.grads_bucket with
      | none => simp [optVal, zeroBuf, hgb]
      | some x => simp [optVal, hgb]
    | some grad =>
      rw [gradCopyFrag_gradsBuckets_self_some f st grad b hbdef.symm, bucketTotal_partial]
      simp only [addSlice]
      by_cases hr : f.bucket_range.1 ≤ k ∧
          k < f.bucket_range.1 + (f.bucket_range.2 - f.bucket_range.1)
      · have hc1 : f.bucket_id = f.bucket_id ∧ f.bucket_range.1 ≤ k ∧
            k < f.bucket_range.1 + (f.bucket_range.2 - f.bucket_range.1) := ⟨rfl, hr⟩
        unfold fragContrib
        rw [if_pos hr, if_pos hc1]
        cases hgb : b.grads_bucket with
        | none => simp [optVal, zeroBuf, hgb, Int.add_comm]
        | some x =>
          simp only [hgb, optVal, Option.getD_some]
          omega
      · have hc1 : ¬ (f.bucket_id = f.bucket_id ∧ f.bucket_range.1 ≤ k ∧
            k < f.bucket_range.1 + (f.bucket_range.2 - f.bucket_range.1)) :=
          fun hc => hr hc.2
        unfold fragContrib
        rw [if_neg hr, if_neg hc1]
        cases hgb : b.grads_bucket with
        | none => simp [optVal, zeroBuf, hgb]
        | some x => simp [optVal, hgb]
  · rw [gradCopyFrag_gradsBuckets_ne g f st i hi, hmid i]
    cases g with
    | none => simp
    | some grad =>
      have hz : fragContrib f grad i k = 0 := by
        unfold fragContrib
        split
        · rename_i hc
          exact absurd hc.1.symm hi
        · rfl
      show bucketTotal (st.gradsBuckets i) k =
        bucketTotal (st.gradsBuckets i) k + fragContrib f grad i k
      rw [hz]
      simp

/-! ### Engine lemmas: fold over fragments, `_grad_copy` -/

theorem gradCopyFold_touchedInv (g : Option Buf) (fs : List ParameterFragment) :
    ∀ st, TouchedInv st →
      TouchedInv (fs.foldl (fun s f => gradCopyFrag g f s) st) := by
  induction fs with
  | nil => intro st h; exact h
  | cons f fs ih =>
    intro st h
    exact ih _ (gradCopyFrag_touchedInv g f st h)

theorem gradCopyFold_cleanInv (g : Option Buf) (fs : List ParameterFragment) :
    ∀ st, CleanInv st →
      CleanInv (fs.foldl (fun s f => gradCopyFrag g f s) st) := by
  induction fs with
  | nil => intro st h; exact h
  | cons f fs ih =>
    intro st h
    exact ih _ (gradCopyFrag_cleanInv g f st h)

theorem gradCopyFrag_total_some (f : ParameterFragment) (st : GradState)
    (hTI : TouchedInv st) (grad : Buf) (i k : Nat) :
    bucketTotal ((gradCopyFrag (some grad) f st).gradsBuckets i) k =
      bucketTotal (st.gradsBuckets i) k + fragContrib f grad i k :=
  gradCopyFrag_total (some grad) f st hTI i k

theorem gradCopyFold_total_some (grad : Buf) (fs : List ParameterFragment) :
    ∀ st, TouchedInv st → ∀ i k,
      bucketTotal ((fs.foldl (fun s f => gradCopyFrag (some grad) f s) st).gradsBuckets i)
          k =
        bucketTotal (st.gradsBuckets i) k +
          ((fs.map (fun f => fragContrib f grad i k)).sum) := by
  induction fs with
  | nil =>
    intro st h i k
    simp
  | cons f fs ih =>
    intro st h i k
    simp only [List.foldl_cons, List.map_cons, List.sum_cons]
    rw [ih _ (gradCopyFrag_touchedInv _ f st h) i k,
      gradCopyFrag_total_some f st h grad i k]
    omega

theorem setGrad_paramGrads_self (pid : Nat) (g : Buf) (st : GradState) :
    (setGrad pid g st).paramGrads pid = some g := by
  simp [setGrad, setAt]

theorem setGrad_gradsBuckets (pid : Nat) (g : Buf) (st : GradState) :
    (setGrad pid g st).gradsBuckets = st.gradsBuckets := rfl

theorem setGrad_touched (pid : Nat) (g : Buf) (st : GradState) :
    (setGrad pid g st).touched = st.touched := rfl

theorem setGrad_touchedInv (pid : Nat) (g : Buf) (st : GradState)
    (h : TouchedInv st) : TouchedInv (setGrad pid g st) := h

theorem setGrad_cleanInv (pid : Nat) (g : Buf) (st : GradState)
    (h : CleanInv st) : CleanInv (setGrad pid g st) := h

theorem gradCopy_touchedInv (fragsOf : Nat → List ParameterFragment) (pid : Nat)
    (st : GradState) (h : TouchedInv st) : TouchedInv (gradCopy fragsOf pid st) :=
  gradCopyFold_touchedInv (st.paramGrads pid) (fragsOf pid) st h

theorem gradCopy_cleanInv (fragsOf : Nat → List ParameterFragment) (pid : Nat)
    (st : GradState) (h : CleanInv st) : CleanInv (gradCopy fragsOf pid st) :=
  gradCopyFold_cleanInv (st.paramGrads pid) (fragsOf pid) st h

theorem gradCopy_total_some (fragsOf : Nat → List ParameterFragment) (pid : Nat)
    (st : GradState) (hTI : TouchedInv st) (grad : Buf)
    (hg : st.paramGrads pid = some grad) (i k : Nat) :
    bucketTotal ((gradCopy fragsOf pid st).gradsBuckets i) k =
      bucketTotal (st.gradsBuckets i) k +
        ((fragsOf pid).map (fun f => fragContrib f grad i k)).sum := by
  show bucketTotal
      (((fragsOf pid).foldl (fun s f => gradCopyFrag (st.paramGrads pid) f s)
        st).gradsBuckets i) k = _
  rw [hg]
  exact gradCopyFold_total_some grad (fragsOf pid) st hTI i k

/-! ### Engine lemmas: force -/

theorem mem_touch_iff {j i : Nat} {t : List Nat} :
    j ∈ touch i t ↔ (j ∈ t ∨ j = i) := by
  unfold touch
  by_cases h : i ∈ t
  · rw [if_pos h]
    constructor
    · exact Or.inl
    · rintro (hj | rfl)
      · exact hj
      · exact h
  · rw [if_neg h, List.mem_cons]
    tauto

theorem mem_foldl_touch (l : List Nat) : ∀ (t : List Nat) (j : Nat),
    j ∈ l.foldl (fun t i => touch i t) t ↔ (j ∈ t ∨ j ∈ l) := by
  induction l with
  | nil => simp
  | cons a l ih =>
    intro t j
    rw [List.foldl_cons, ih, mem_touch_iff, List.mem_cons]
    tauto

theorem forceCollectIds_subset (st : GradState) :
    ∀ i ∈ forceCollectIds st, i ∈ st.touched := by
  intro i hi
  exact List.mem_of_mem_filter hi

theorem forceCollectIds_status (st : GradState) :
    ∀ i ∈ forceCollectIds st,
      (st.gradsBuckets i).status ≠ .READY ∧ (st.gradsBuckets i).status ≠ .SYNCING := by
  intro i hi
  have h := (List.mem_filter.mp hi).2
  simp only [Bool.not_eq_true', Bool.or_eq_false_iff, decide_eq_false_iff_not] at h
  exact h

theorem forceCollectIds_complete (st : GradState) (i : Nat) (hi : i ∈ st.touched)
    (h1 : (st.gradsBuckets i).status ≠ .READY)
    (h2 : (st.gradsBuckets i).status ≠ .SYNCING) : i ∈ forceCollectIds st := by
  apply List.mem_filter.mpr
  refine ⟨hi, ?_⟩
  simp only [Bool.not_eq_true', Bool.or_eq_false_iff, decide_eq_false_iff_not]
  exact ⟨h1, h2⟩

theorem forceAlloc_gradsBuckets (ids : List Nat) (st : GradState) (i : Nat) :
    (forceAlloc ids st).gradsBuckets i =
      if i ∈ ids then
        { st.gradsBuckets i with
          grads_bucket := some (match (st.gradsBuckets i).grads_bucket with
            | none => zeroBuf
            | some x => x) }
      else st.gradsBuckets i := rfl

theorem forceAlloc_touched (ids : List Nat) (st : GradState) :
    (forceAlloc ids st).touched = st.touched := rfl

theorem forceAlloc_status (ids : List Nat) (st : GradState) (i : Nat) :
    ((forceAlloc ids st).gradsBuckets i).status = (st.gradsBuckets i).status := by
  rw [forceAlloc_gradsBuckets]
  by_cases hi : i ∈ ids
  · rw [if_pos hi]
  · rw [if_neg hi]

theorem forceAlloc_total (ids : List Nat) (st : GradState) (i k : Nat) :
    bucketTotal ((forceAlloc ids st).gradsBuckets i) k =
      bucketTotal (st.gradsBuckets i) k := by
  rw [forceAlloc_gradsBuckets]
  by_cases hi : i ∈ ids
  · rw [if_pos hi]
    unfold bucketTotal
    simp only
    cases hgb : (st.gradsBuckets i).grads_bucket with
    | none => simp [optVal, zeroBuf, hgb]
    | some x => simp [optVal, hgb]
  · rw [if_neg hi]

theorem forceAlloc_touchedInv (ids : List Nat) (st : GradState) (hTI : TouchedInv st)
    (hids : ∀ i ∈ ids, i ∈ st.touched) : TouchedInv (forceAlloc ids st) := by
  intro j hj
  rw [forceAlloc_touched] at hj
  rw [forceAlloc_gradsBuckets, if_neg (fun hc => hj (hids j hc))]
  exact hTI j hj

theorem forceAlloc_cleanInv (ids : List Nat) (st : GradState) (hCI : CleanInv st)
    (hids : ∀ i ∈ ids, (st.gradsBuckets i).status ≠ .READY) :
    CleanInv (forceAlloc ids st) := by
  intro j
  rw [forceAlloc_status, forceAlloc_gradsBuckets]
  intro hst
  by_cases hj : j ∈ ids
  · exact absurd hst (hids j hj)
  · rw [if_neg hj]
    exact hCI j hst

theorem forceZeroFill_gradsBuckets (sb : List StateBucket) (st : GradState) (i : Nat) :
    (forceZeroFill sb st).gradsBuckets i =
      if i < sb.length then
        match (st.gradsBuckets i).grads_shard with
        | none => { st.gradsBuckets i with grads_shard := some zeroBuf }
        | some _ => st.gradsBuckets i
      else st.gradsBuckets i := rfl

theorem forceZeroFill_status (sb : List StateBucket) (st : GradState) (i : Nat) :
    ((forceZeroFill sb st).gradsBuckets i).status = (st.gradsBuckets i).status := by
  rw [forceZeroFill_gradsBuckets]
  by_cases hi : i < sb.length
  · rw [if_pos hi]
    cases hs : (st.gradsBuckets i).grads_shard with
    | none => simp only [hs]
    | some x => simp only [hs]
  · rw [if_neg hi]

theorem forceZeroFill_clean_fields (sb : List StateBucket) (st : GradState) (i : Nat) :
    ((forceZeroFill sb st).gradsBuckets i).grads_bucket =
      (st.gradsBuckets i).grads_bucket ∧
    ((forceZeroFill sb st).gradsBuckets i).sync_grads_shard =
      (st.gradsBuckets i).sync_grads_shard := by
  rw [forceZeroFill_gradsBuckets]
  by_cases hi : i < sb.length
  · rw [if_pos hi]
    cases hs : (st.gradsBuckets i).grads_shard with
    | none => simp [hs]
    | some x => simp [hs]
  · rw [if_neg hi]
    exact ⟨rfl, rfl⟩

theorem forceZeroFill_total (sb : List StateBucket) (st : GradState) (i k : Nat) :
    bucketTotal ((forceZeroFill sb st).gradsBuckets i) k =
      bucketTotal (st.gradsBuckets i) k := by
  rw [forceZeroFill_gradsBuckets]
  by_cases hi : i < sb.length
  · rw [if_pos hi]
    cases hs : (st.gradsBuckets i).grads_shard with
    | none =>
      simp only [hs]
      unfold bucketTotal
      simp [optVal, zeroBuf, hs]
    | some x => simp only [hs]
  · rw [if_neg hi]

theorem forceZeroFill_isSome (sb : List StateBucket) (st : GradState) (i : Nat)
    (hi : i < sb.length) :
    ((forceZeroFill sb st).gradsBuckets i).grads_shard.isSome = true := by
  rw [forceZeroFill_gradsBuckets, if_pos hi]
  cases hs : (st.gradsBuckets i).grads_shard with
  | none => simp only [hs]; rfl
  | some x => simp only [hs, Option.isSome_some]

theorem forceZeroFill_touchedInv (sb : List StateBucket) (st : GradState)
    (hTI : TouchedInv st) : TouchedInv (forceZeroFill sb st) := by
  intro j hj
  have hj2 : ¬ (j ∈ st.touched ∨ j ∈ List.range sb.length) := by
    intro hc
    exact hj ((mem_foldl_touch (List.range sb.length) st.touched j).mpr hc)
  push_neg at hj2
  obtain ⟨hj3, hj4⟩ := hj2
  have hj5 : ¬ j < sb.length := fun hc => hj4 (List.mem_range.mpr hc)
  rw [forceZeroFill_gradsBuckets, if_neg hj5]
  exact hTI j hj3

theorem forceZeroFill_cleanInv (sb : List StateBucket) (st : GradState)
    (hCI : CleanInv st) : CleanInv (forceZeroFill sb st) := by
  intro j
  rw [forceZeroFill_status]
  intro hst
  rw [(forceZeroFill_clean_fields sb st j).1, (forceZeroFill_clean_fields sb st j).2]
  exact hCI j hst

theorem finishOne_status_ready (b : GradientBucket)
    (h : b.status = .READY ∨ b.status = .SYNCING) :
    (finishOne b).status = .READY := by
  unfold finishOne
  by_cases hS : b.status = .SYNCING
  · rw [if_pos hS]
  · rw [if_neg hS]
    rcases h with h | h
    · exact h
    · exact absurd h hS

theorem force_total (sb : List StateBucket) (st : GradState) (hTI : TouchedInv st)
    (i k : Nat) :
    bucketTotal ((forceBucketGradSync sb st).gradsBuckets i) k =
      bucketTotal (st.gradsBuckets i) k := by
  show bucketTotal ((forceZeroFill sb (finishBucketGradSync
      (if (forceCollectIds st).isEmpty then forceAlloc (forceCollectIds st) st
       else startBucketGradSync (forceCollectIds st)
         (forceAlloc (forceCollectIds st) st)))).gradsBuckets i) k = _
  rw [forceZeroFill_total, finishAll_total]
  by_cases hE : (forceCollectIds st).isEmpty
  · rw [if_pos hE, forceAlloc_total]
  · rw [if_neg hE,
      start_total _ _ (forceAlloc_touchedInv _ st hTI (forceCollectIds_subset st)),
      forceAlloc_total]

theorem force_touched_sup (sb : List StateBucket) (st : GradState) (j : Nat)
    (hj : j ∈ st.touched) : j ∈ (forceBucketGradSync sb st).touched := by
  show j ∈ (forceZeroFill sb _).touched
  unfold forceZeroFill
  simp only
  apply (mem_foldl_touch _ _ _).mpr
  left
  rw [finishAll_touched]
  by_cases hE : (forceCollectIds st).isEmpty
  · rw [if_pos hE]
    exact hj
  · rw [if_neg hE, start_touched]
    exact hj

theorem force_touchedInv (sb : List StateBucket) (st : GradState)
    (hTI : TouchedInv st) : TouchedInv (forceBucketGradSync sb st) := by
  show TouchedInv (forceZeroFill sb (finishBucketGradSync _))
  apply forceZeroFill_touchedInv
  apply finishAll_touchedInv
  by_cases hE : (forceCollectIds st).isEmpty
  · rw [if_pos hE]
    exact forceAlloc_touchedInv _ st hTI (forceCollectIds_subset st)
  · rw [if_neg hE]
    exact start_touchedInv _ _
      (forceAlloc_touchedInv _ st hTI (forceCollectIds_subset st))
      (forceCollectIds_subset st)

theorem force_cleanInv (sb : List StateBucket) (st : GradState)
    (hCI : CleanInv st) : CleanInv (forceBucketGradSync sb st) := by
  show CleanInv (forceZeroFill sb (finishBucketGradSync _))
  apply forceZeroFill_cleanInv
  apply finishAll_cleanInv
  by_cases hE : (forceCollectIds st).isEmpty
  · rw [if_pos hE]
    exact forceAlloc_cleanInv _ st hCI
      (fun i hi => (forceCollectIds_status st i hi).1)
  · rw [if_neg hE]
    exact start_cleanInv _ _
      (forceAlloc_cleanInv _ st hCI (fun i hi => (forceCollectIds_status st i hi).1))

theorem force_prep_ready_or_syncing (st : GradState) (hTI : TouchedInv st) (i : Nat) :
    ((if (forceCollectIds st).isEmpty then forceAlloc (forceCollectIds st) st
      else startBucketGradSync (forceCollectIds st)
        (forceAlloc (forceCollectIds st) st)).gradsBuckets i).status = .READY ∨
    ((if (forceCollectIds st).isEmpty then forceAlloc (forceCollectIds st) st
      else startBucketGradSync (forceCollectIds st)
        (forceAlloc (forceCollectIds st) st)).gradsBuckets i).status = .SYNCING := by
  by_cases ht : i ∈ st.touched
  · by_cases hrs : (st.gradsBuckets i).status = .READY ∨
        (st.gradsBuckets i).status = .SYNCING
    · by_cases hE : (forceCollectIds st).isEmpty
      · rw [if_pos hE, forceAlloc_status]
        exact hrs
      · rw [if_neg hE, start_gradsBuckets]
        by_cases hi : i ∈ forceCollectIds st
        · rw [if_pos hi]
          right
          rfl
        · rw [finishAll_gradsBuckets, if_neg hi, forceAlloc_touched, if_pos ht]
          left
          apply finishOne_status_ready
          rw [forceAlloc_status]
          exact hrs
    · push_neg at hrs
      have hi : i ∈ forceCollectIds st := forceCollectIds_complete st i ht hrs.1 hrs.2
      have hE : ¬ (forceCollectIds st).isEmpty := by
        intro hc
        rw [List.isEmpty_iff] at hc
        rw [hc] at hi
        exact absurd hi (List.not_mem_nil i)
      rw [if_neg hE, start_gradsBuckets, if_pos hi]
      right
      rfl
  · have hfresh : st.gradsBuckets i = freshGradientBucket := hTI i ht
    have hni : i ∉ forceCollectIds st := fun hc => ht (forceCollectIds_subset st i hc)
    by_cases hE : (forceCollectIds st).isEmpty
    · rw [if_pos hE, forceAlloc_status, hfresh]
      left
      rfl
    · rw [if_neg hE, start_gradsBuckets, if_neg hni, finishAll_gradsBuckets,
        forceAlloc_touched, if_neg ht, forceAlloc_gradsBuckets, if_neg hni, hfresh]
      left
      rfl

theorem force_status_ready (sb : List StateBucket) (st : GradState)
    (hTI : TouchedInv st) (i : Nat) :
    ((forceBucketGradSync sb st).gradsBuckets i).status = .READY := by
  show ((forceZeroFill sb (finishBucketGradSync _)).gradsBuckets i).status = .READY
  rw [forceZeroFill_status, finishAll_gradsBuckets]
  by_cases ht : i ∈ (if (forceCollectIds st).isEmpty
      then forceAlloc (forceCollectIds st) st
      else startBucketGradSync (forceCollectIds st)
        (forceAlloc (forceCollectIds st) st)).touched
  · rw [if_pos ht]
    exact finishOne_status_ready _ (force_prep_ready_or_syncing st hTI i)
  · rw [if_neg ht]
    rcases force_prep_ready_or_syncing st hTI i with h | h
    · exact h
    · exfalso
      apply ht
      by_cases hE : (forceCollectIds st).isEmpty
      · rw [if_pos hE] at h ⊢
        rw [forceAlloc_touched]
        rw [forceAlloc_status] at h
        by_contra hc
        rw [hTI i hc] at h
        exact absurd h (by intro hx; cases hx)
      · rw [if_neg hE] at h ⊢
        rw [start_touched, forceAlloc_touched]
        by_cases hi : i ∈ forceCollectIds st
        · exact forceCollectIds_subset st i hi
        · by_contra hc
          rw [start_gradsBuckets, if_neg hi, finishAll_gradsBuckets,
            forceAlloc_touched, if_neg hc, forceAlloc_gradsBuckets, if_neg hi,
            hTI i hc] at h
          exact absurd h (by intro hx; cases hx)

theorem force_shard_isSome (sb : List StateBucket) (st : GradState) (i : Nat)
    (hi : i < sb.length) :
    ((forceBucketGradSync sb st).gradsBuckets i).grads_shard.isSome = true := by
  show ((forceZeroFill sb (finishBucketGradSync _)).gradsBuckets i).grads_shard.isSome
    = true
  exact forceZeroFill_isSome sb _ i hi

/-! ### Engine lemmas: rounds -/

theorem roundFold_touchedInv (fragsOf : Nat → List ParameterFragment)
    (round : List (Nat × Buf)) :
    ∀ st, TouchedInv st →
      TouchedInv (round.foldl (fun s c => gradCopy fragsOf c.1 (setGrad c.1 c.2 s)) st) := by
  induction round with
  | nil => intro st h; exact h
  | cons c round ih =>
    intro st h
    exact ih _ (gradCopy_touchedInv fragsOf c.1 _ (setGrad_touchedInv c.1 c.2 st h))

theorem roundFold_cleanInv (fragsOf : Nat → List ParameterFragment)
    (round : List (Nat × Buf)) :
    ∀ st, CleanInv st →
      CleanInv (round.foldl (fun s c => gradCopy fragsOf c.1 (setGrad c.1 c.2 s)) st) := by
  induction round with
  | nil => intro st h; exact h
  | cons c round ih =>
    intro st h
    exact ih _ (gradCopy_cleanInv fragsOf c.1 _ (setGrad_cleanInv c.1 c.2 st h))

theorem roundFold_total (fragsOf : Nat → List ParameterFragment)
    (round : List (Nat × Buf)) :
    ∀ st, TouchedInv st → ∀ i k,
      bucketTotal (((round.foldl
          (fun s c => gradCopy fragsOf c.1 (setGrad c.1 c.2 s)) st)).gradsBuckets i) k =
        bucketTotal (st.gradsBuckets i) k + contribSum fragsOf round i k := by
  induction round with
  | nil =>
    intro st h i k
    simp [contribSum]
  | cons c round ih =>
    intro st h i k
    rw [List.foldl_cons,
      ih _ (gradCopy_touchedInv fragsOf c.1 _ (setGrad_touchedInv c.1 c.2 st h)) i k,
      gradCopy_total_some fragsOf c.1 _ (setGrad_touchedInv c.1 c.2 st h) c.2
        (setGrad_paramGrads_self c.1 c.2 st) i k]
    show bucketTotal (st.gradsBuckets i) k + _ + _ = _ + contribSum fragsOf (c :: round) i k
    unfold contribSum
    rw [List.map_cons, List.sum_cons]
    omega

theorem runRound_total (sb : List StateBucket) (fragsOf : Nat → List ParameterFragment)
    (round : List (Nat × Buf)) (st : GradState) (hTI : TouchedInv st) (i k : Nat) :
    bucketTotal ((runRound sb fragsOf round st).gradsBuckets i) k =
      bucketTotal (st.gradsBuckets i) k + contribSum fragsOf round i k := by
  unfold runRound
  rw [force_total sb _ (roundFold_touchedInv fragsOf round st hTI) i k,
    roundFold_total fragsOf round st hTI i k]

theorem runRound_touchedInv (sb : List StateBucket)
    (fragsOf : Nat → List ParameterFragment) (round : List (Nat × Buf)) (st : GradState)
    (hTI : TouchedInv st) : TouchedInv (runRound sb fragsOf round st) :=
  force_touchedInv sb _ (roundFold_touchedInv fragsOf round st hTI)

theorem runRound_cleanInv (sb : List StateBucket)
    (fragsOf : Nat → List ParameterFragment) (round : List (Nat × Buf)) (st : GradState)
    (hCI : CleanInv st) : CleanInv (runRound sb fragsOf round st) :=
  force_cleanInv sb _ (roundFold_cleanInv fragsOf round st hCI)

theorem runRounds_touchedInv (sb : List StateBucket)
    (fragsOf : Nat → List ParameterFragment) (rounds : List (List (Nat × Buf))) :
    ∀ st, TouchedInv st → TouchedInv (runRounds sb fragsOf rounds st) := by
  induction rounds with
  | nil => intro st h; exact h
  | cons r rounds ih =>
    intro st h
    exact ih _ (runRound_touchedInv sb fragsOf r st h)

theorem runRounds_cleanInv (sb : List StateBucket)
    (fragsOf : Nat → List ParameterFragment) (rounds : List (List (Nat × Buf))) :
    ∀ st, CleanInv st → CleanInv (runRounds sb fragsOf rounds st) := by
  induction rounds with
  | nil => intro st h; exact h
  | cons r rounds ih =>
    intro st h
    exact ih _ (runRound_cleanInv sb fragsOf r st h)

theorem runRounds_total (sb : List StateBucket)
    (fragsOf : Nat → List ParameterFragment) (rounds : List (List (Nat × Buf))) :
    ∀ st, TouchedInv st → ∀ i k,
      bucketTotal ((runRounds sb fragsOf rounds st).gradsBuckets i) k =
        bucketTotal (st.gradsBuckets i) k + roundsContribSum fragsOf rounds i k := by
  induction rounds with
  | nil =>
    intro st h i k
    simp [runRounds, roundsContribSum]
  | cons r rounds ih =>
    intro st h i k
    show bucketTotal ((runRounds sb fragsOf rounds (runRound sb fragsOf r st)).gradsBuckets
      i) k = _
    rw [ih _ (runRound_touchedInv sb fragsOf r st h) i k,
      runRound_total sb fragsOf r st h i k]
    unfold roundsContribSum
    rw [List.map_cons, List.sum_cons]
    show _ = _ + (contribSum fragsOf r i k + (rounds.map fun r => contribSum fragsOf r i k).sum)
    omega

theorem initialGradState_touchedInv : TouchedInv initialGradState := by
  intro i _
  rfl

theorem initialGradState_cleanInv : CleanInv initialGradState := by
  intro i _
  exact ⟨rfl, rfl⟩

theorem initialGradState_total (i k : Nat) :
    bucketTotal (initialGradState.gradsBuckets i) k = 0 := by
  rfl

theorem runRounds_concat_force (sb : List StateBucket)
    (fragsOf : Nat → List ParameterFragment) (rounds : List (List (Nat × Buf)))
    (last : List (Nat × Buf)) (st : GradState) :
    runRounds sb fragsOf (rounds ++ [last]) st =
      forceBucketGradSync sb
        ((last.foldl (fun s c => gradCopy fragsOf c.1 (setGrad c.1 c.2 s))
          (runRounds sb fragsOf rounds st))) := by
  unfold runRounds
  rw [List.foldl_append]
  rfl

/-! ### A concrete two-parameter scenario used by several witnesses -/

/-- Alignment 4, singleton process group, bucket capacity 16. -/
def demoCfg : Config := ⟨4, 1, 0, 16⟩

/-- Two parameters of 8 and 4 elements in parameter group 0. -/
def demoInit : List StateBucket × List (Nat × Nat × List ParameterFragment) :=
  initParams demoCfg [(0, 0, 8), (0, 1, 4)] []

def demoSB : List StateBucket := demoInit.1

def demoFragsOf (p : Nat) : List ParameterFragment :=
  match demoInit.2.find? (fun e => e.2.1 = p) with
  | some e => e.2.2
  | none => []

def demoGrad0 : Buf := fun k => (k : Int) + 1

def demoGrad1 : Buf := fun k => 10 * ((k : Int) + 1)

def demoRound : List (Nat × Buf) := [(0, demoGrad0), (1, demoGrad1)]

def demoRounds : List (List (Nat × Buf)) := [demoRound, demoRound]

/-- The state after parameter 0 alone has produced a gradient and run
`_grad_copy`: bucket 0 is `PARTIALLY_FILLED`. -/
def demoPartialState : GradState :=
  gradCopy demoFragsOf 0 (setGrad 0 demoGrad0 initialGradState)

/-- C2: starting from the pristine optimizer state, any number of
accumulation rounds — each installing `param.grad` for a list of
parameters and running `_grad_copy`, and ending with
`_force_bucket_grad_sync` — leaves every in-range bucket with an
allocated local gradient shard whose total at each position is the exact
sum of all per-parameter gradient slices contributed over all rounds
(`roundsContribSum`): repeated rounds sum into the shard rather than
overwrite it. -/
theorem C2_grad_accumulation (sb : List StateBucket)
    (fragsOf : Nat → List ParameterFragment) (rounds : List (List (Nat × Buf)))
    (hr : 0 < rounds.length) (i k : Nat) (hi : i < sb.length) :
    ((runRounds sb fragsOf rounds initialGradState).gradsBuckets i).grads_shard.isSome
        = true ∧
    optVal ((runRounds sb fragsOf rounds initialGradState).gradsBuckets i).grads_shard k
        = roundsContribSum fragsOf rounds i k := by
  rcases List.eq_nil_or_concat' rounds with rfl | ⟨init, last, rfl⟩
  · exact absurd hr (by decide)
  · have htot := runRounds_total sb fragsOf (init ++ [last]) initialGradState
      initialGradState_touchedInv i k
    rw [initialGradState_total, Int.zero_add] at htot
    have hTImid : TouchedInv (last.foldl
        (fun s c => gradCopy fragsOf c.1 (setGrad c.1 c.2 s))
        (runRounds sb fragsOf init initialGradState)) :=
      roundFold_touchedInv fragsOf last _
        (runRounds_touchedInv sb fragsOf init initialGradState initialGradState_touchedInv)
    have hCImid : CleanInv (last.foldl
        (fun s c => gradCopy fragsOf c.1 (setGrad c.1 c.2 s))
        (runRounds sb fragsOf init initialGradState)) :=
      roundFold_cleanInv fragsOf last _
        (runRounds_cleanInv sb fragsOf init initialGradState initialGradState_cleanInv)
    have heq := runRounds_concat_force sb fragsOf init last initialGradState
    have hready : ((runRounds sb fragsOf (init ++ [last])
        initialGradState).gradsBuckets i).status = .READY := by
      rw [heq]
      exact force_status_ready sb _ hTImid i
    have hsome : ((runRounds sb fragsOf (init ++ [last])
        initialGradState).gradsBuckets i).grads_shard.isSome = true := by
      rw [heq]
      exact force_shard_isSome sb _ i hi
    have hclean := (force_cleanInv sb _ hCImid) i (by rw [← heq]; exact hready)
    rw [← heq] at hclean
    refine ⟨hsome, ?_⟩
    rw [bucketTotal_not_syncing _ k (by rw [hready]; intro hc; cases hc)] at htot
    rw [hclean.1] at htot
    have hz : optVal none k = 0 := rfl
    rw [hz] at htot
    omega

theorem C2_grad_accumulation_witness :
    0 < demoRounds.length ∧ 0 < demoSB.length ∧
    (((runRounds demoSB demoFragsOf demoRounds initialGradState).gradsBuckets
        0).grads_shard.isSome = true ∧
     optVal ((runRounds demoSB demoFragsOf demoRounds initialGradState).gradsBuckets
        0).grads_shard 9 = roundsContribSum demoFragsOf demoRounds 0 9) :=
  ⟨by decide, by decide,
    C2_grad_accumulation demoSB demoFragsOf demoRounds (by decide) 0 9 (by decide)⟩

/-- C5: after `_force_bucket_grad_sync`, every bucket id in range of the
state-bucket list has status `READY` and an allocated (non-null) local
gradient shard; the hypothesis `TouchedInv` says ids outside the
gradient defaultdict's key set still hold the default fresh bucket,
which holds in every reachable state. -/
theorem C5_force_ready (sb : List StateBucket) (st : GradState) (hTI : TouchedInv st)
    (i : Nat) (hi : i < sb.length) :
    ((forceBucketGradSync sb st).gradsBuckets i).status = .READY ∧
    ((forceBucketGradSync sb st).gradsBuckets i).grads_shard.isSome = true :=
  ⟨force_status_ready sb st hTI i, force_shard_isSome sb st i hi⟩

theorem C5_force_ready_witness :
    TouchedInv demoPartialState ∧ 0 < demoSB.length ∧
    (((forceBucketGradSync demoSB demoPartialState).gradsBuckets 0).status = .READY ∧
     ((forceBucketGradSync demoSB demoPartialState).gradsBuckets
        0).grads_shard.isSome = true) :=
  ⟨gradCopy_touchedInv demoFragsOf 0 _
      (setGrad_touchedInv 0 demoGrad0 initialGradState initialGradState_touchedInv),
   by decide,
   C5_force_ready demoSB demoPartialState
     (gradCopy_touchedInv demoFragsOf 0 _
       (setGrad_touchedInv 0 demoGrad0 initialGradState initialGradState_touchedInv))
     0 (by decide)⟩

/-- C10: `_grad_copy` ends by setting `param.grad = None` (source line
1332), so after any `_grad_copy(param)` — in particular each invocation
from the gradient-ready callback — the parameter's gradient buffer slot
is `None`, no matter the prior optimizer state. -/
theorem C10_grad_released (fragsOf : Nat → List ParameterFragment) (pid : Nat)
    (st : GradState) : (gradCopy fragsOf pid st).paramGrads pid = none := by
  simp [gradCopy, setAt]

/-! ### Status-transition analysis (C4) -/

/-- The edges the gradient-bucket status actually follows: unchanged;
any status back to `PARTIALLY_FILLED` when a gradient slice is copied
in; `PARTIALLY_FILLED → FULLY_FILLED` on full registration;
`PARTIALLY_FILLED → SYNCING` or `FULLY_FILLED → SYNCING` when a sync is
launched (the force path launches partially filled buckets directly);
`SYNCING → READY` when a sync completes. -/
def StatusEdge (s t : GradientStatus) : Prop :=
  t = s ∨ t = .PARTIALLY_FILLED ∨
  (s = .PARTIALLY_FILLED ∧ t = .FULLY_FILLED) ∨
  ((s = .PARTIALLY_FILLED ∨ s = .FULLY_FILLED) ∧ t = .SYNCING) ∨
  (s = .SYNCING ∧ t = .READY)

instance (s t : GradientStatus) : Decidable (StatusEdge s t) := by
  unfold StatusEdge
  infer_instance

/-- The edges a single `_grad_copy` fragment step can follow. -/
def CopyEdge (s t : GradientStatus) : Prop :=
  t = s ∨ t = .PARTIALLY_FILLED ∨ (s = .SYNCING ∧ t = .READY)

theorem copyEdge_trans {s m t : GradientStatus} (h1 : CopyEdge s m)
    (h2 : CopyEdge m t) : CopyEdge s t := by
  rcases h2 with rfl | rfl | ⟨hm, rfl⟩
  · exact h1
  · exact Or.inr (Or.inl rfl)
  · rcases h1 with rfl | hp | ⟨hs, hr⟩
    · exact Or.inr (Or.inr ⟨hm, rfl⟩)
    · rw [hp] at hm
      exact absurd hm (by decide)
    · exact Or.inr (Or.inr ⟨hs, rfl⟩)

theorem copyEdge_statusEdge {s t : GradientStatus} (h : CopyEdge s t) :
    StatusEdge s t := by
  rcases h with rfl | rfl | ⟨hs, rfl⟩
  · exact Or.inl rfl
  · exact Or.inr (Or.inl rfl)
  · exact Or.inr (Or.inr (Or.inr (Or.inr ⟨hs, rfl⟩)))

theorem finishOne_copyEdge (b : GradientBucket) :
    CopyEdge b.status (finishOne b).status := by
  unfold finishOne
  by_cases h : b.status = .SYNCING
  · rw [if_pos h]
    exact Or.inr (Or.inr ⟨h, rfl⟩)
  · rw [if_neg h]
    exact Or.inl rfl

theorem finishAll_copyEdge (st : GradState) (j : Nat) :
    CopyEdge ((st.gradsBuckets j).status)
      (((finishBucketGradSync st).gradsBuckets j).status) := by
  rw [finishAll_gradsBuckets]
  by_cases h : j ∈ st.touched
  · rw [if_pos h]
    exact finishOne_copyEdge _
  · rw [if_neg h]
    exact Or.inl rfl

theorem gradCopyFrag_copyEdge (g : Option Buf) (f : ParameterFragment)
    (st : GradState) (j : Nat) :
    CopyEdge ((st.gradsBuckets j).status)
      (((gradCopyFrag g f st).gradsBuckets j).status) := by
  by_cases hj : j = f.bucket_id
  · subst hj
    rw [gradCopyFrag_status_self]
    exact Or.inr (Or.inl rfl)
  · rw [gradCopyFrag_gradsBuckets_ne g f st j hj]
    by_cases hc : (st.gradsBuckets f.bucket_id).status = .SYNCING
    · rw [if_pos hc]
      exact finishAll_copyEdge st j
    · rw [if_neg hc]
      exact Or.inl rfl

theorem gradCopyFold_copyEdge (g : Option Buf) (fs : List ParameterFragment) :
    ∀ st j, CopyEdge ((st.gradsBuckets j).status)
      (((fs.foldl (fun s f => gradCopyFrag g f s) st).gradsBuckets j).status) := by
  induction fs with
  | nil => intro st j; exact Or.inl rfl
  | cons f fs ih =>
    intro st j
    exact copyEdge_trans (gradCopyFrag_copyEdge g f st j) (ih _ j)

theorem gradCopy_copyEdge (fragsOf : Nat → List ParameterFragment) (pid : Nat)
    (st : GradState) (j : Nat) :
    CopyEdge ((st.gradsBuckets j).status)
      (((gradCopy fragsOf pid st).gradsBuckets j).status) :=
  gradCopyFold_copyEdge (st.paramGrads pid) (fragsOf pid) st j

theorem startOne_status (b : GradientBucket) : (startOne b).status = .SYNCING := rfl

theorem start_statusEdge (ids : List Nat) (st : GradState)
    (hids : ∀ i ∈ ids, (st.gradsBuckets i).status = .PARTIALLY_FILLED ∨
      (st.gradsBuckets i).status = .FULLY_FILLED) (j : Nat) :
    StatusEdge ((st.gradsBuckets j).status)
      (((startBucketGradSync ids st).gradsBuckets j).status) := by
  rw [start_gradsBuckets]
  by_cases hj : j ∈ ids
  · rw [if_pos hj, startOne_status]
    exact Or.inr (Or.inr (Or.inr (Or.inl ⟨hids j hj, rfl⟩)))
  · rw [if_neg hj]
    exact copyEdge_statusEdge (finishAll_copyEdge st j)

theorem registerFrag_fully_iff (sb : List StateBucket) (pid : Nat)
    (f : ParameterFragment) (s : GradState) (j : Nat)
    (h : ((registerFrag sb pid f s).gradsBuckets j).status = .FULLY_FILLED) :
    (s.gradsBuckets j).status = .FULLY_FILLED ∨
    ((registerFrag sb pid f s).gradsBuckets j).grads_generated.length =
      ((sb.getD j default).fragments).length := by
  by_cases hj : j = f.bucket_id
  · subst hj
    by_cases hfull : (if pid ∈ (s.gradsBuckets f.bucket_id).grads_generated then
          (s.gradsBuckets f.bucket_id).grads_generated
        else (s.gradsBuckets f.bucket_id).grads_generated ++ [pid]).length =
        ((sb.getD f.bucket_id default).fragments).length
    · right
      show ((setAt s.gradsBuckets f.bucket_id _ f.bucket_id).grads_generated).length = _
      simp only [setAt, if_pos rfl]
      rw [if_pos hfull]
      exact hfull
    · left
      revert h
      show ((setAt s.gradsBuckets f.bucket_id _ f.bucket_id).status = _) → _
      simp only [setAt, if_pos rfl]
      rw [if_neg hfull]
      exact fun h => h
  · left
    revert h
    show ((setAt s.gradsBuckets f.bucket_id _ j).status = _) → _
    simp only [setAt, if_neg hj]
    exact fun h => h

/-- C4 counterexample: the claimed strict cycle
`PARTIALLY_FILLED → FULLY_FILLED → SYNCING → READY` is violated by
`_force_bucket_grad_sync` (lines 1418-1447), which passes every bucket
that is neither `READY` nor `SYNCING` — including `PARTIALLY_FILLED`
ones — straight to `_start_bucket_grad_sync` (line 1436).  Concretely,
after only parameter 0 of the two-parameter demo scenario has run
`_grad_copy`, bucket 0 is `PARTIALLY_FILLED`, the force path collects
exactly bucket 0, and launching the sync (the state between lines 1436
and 1437) moves it directly to `SYNCING`, skipping `FULLY_FILLED`. -/
theorem C4_counterexample :
    (demoPartialState.gradsBuckets 0).status = .PARTIALLY_FILLED ∧
    forceCollectIds demoPartialState = [0] ∧
    ((startBucketGradSync (forceCollectIds demoPartialState)
        (forceAlloc (forceCollectIds demoPartialState)
          demoPartialState)).gradsBuckets 0).status = .SYNCING := by
  decide

/-- C4 amended: every status change follows an edge of `StatusEdge`:
a gradient copy moves any status (back) to `PARTIALLY_FILLED` and may
complete a pending sync (`SYNCING → READY`); finishing syncs only moves
`SYNCING → READY`; launching syncs on buckets that are
`PARTIALLY_FILLED` or `FULLY_FILLED` — both occur: `_try_start` passes
fully filled buckets, `_force` passes partially filled ones — moves them
to `SYNCING` and may complete other pending syncs; and a registration
step flips a bucket to `FULLY_FILLED` only when its generated-parameter
count has reached the bucket's fragment count, i.e. every fragment
assigned to the bucket has contributed. -/
theorem C4_amended :
    (∀ (fragsOf : Nat → List ParameterFragment) (pid : Nat) (st : GradState) (j : Nat),
      StatusEdge ((st.gradsBuckets j).status)
        (((gradCopy fragsOf pid st).gradsBuckets j).status)) ∧
    (∀ (st : GradState) (j : Nat),
      StatusEdge ((st.gradsBuckets j).status)
        (((finishBucketGradSync st).gradsBuckets j).status)) ∧
    (∀ (ids : List Nat) (st : GradState),
      (∀ i ∈ ids, (st.gradsBuckets i).status = .PARTIALLY_FILLED ∨
        (st.gradsBuckets i).status = .FULLY_FILLED) →
      ∀ j, StatusEdge ((st.gradsBuckets j).status)
        (((startBucketGradSync ids st).gradsBuckets j).status)) ∧
    (∀ (sb : List StateBucket) (pid : Nat) (f : ParameterFragment) (s : GradState)
        (j : Nat),
      ((registerFrag sb pid f s).gradsBuckets j).status = .FULLY_FILLED →
      (s.gradsBuckets j).status = .FULLY_FILLED ∨
      ((registerFrag sb pid f s).gradsBuckets j).grads_generated.length =
        ((sb.getD j default).fragments).length) :=
  ⟨fun fragsOf pid st j => copyEdge_statusEdge (gradCopy_copyEdge fragsOf pid st j),
   fun st j => copyEdge_statusEdge (finishAll_copyEdge st j),
   start_statusEdge,
   registerFrag_fully_iff⟩

theorem C4_amended_witness :
    (∀ i ∈ [0], (demoPartialState.gradsBuckets i).status = .PARTIALLY_FILLED ∨
      (demoPartialState.gradsBuckets i).status = .FULLY_FILLED) ∧
    StatusEdge ((demoPartialState.gradsBuckets 0).status)
      (((startBucketGradSync [0] demoPartialState).gradsBuckets 0).status) :=
  ⟨by decide, C4_amended.2.2.1 [0] demoPartialState (by decide) 0⟩

/-! ### Parameter synchronization and the overlap-mode hooks (C9) -/

/-- Source `ParameterStatus` (lines 458-466). -/
inductive ParameterStatus
  | SHARDED
  | SYNCING
  | READY
deriving DecidableEq

/-- Source `ParameterBucket` (lines 468-479); `params_updated` holds the
ids of parameters already copied out of the bucket. -/
structure ParameterBucket where
  params_shard : Option Buf
  params_bucket : Option Buf
  status : ParameterStatus
  params_updated : List Nat

/-- `self._params_buckets` is an ordered dict with deletion; modelled as
an association list in insertion order. -/
def pbFind (l : List (Nat × ParameterBucket)) (i : Nat) : Option ParameterBucket :=
  (l.find? (fun e => e.1 = i)).map (fun e => e.2)

def pbUpdate (l : List (Nat × ParameterBucket)) (i : Nat)
    (f : ParameterBucket → ParameterBucket) : List (Nat × ParameterBucket) :=
  l.map (fun e => if e.1 = i then (e.1, f e.2) else e)

def pbErase (l : List (Nat × ParameterBucket)) (i : Nat) :
    List (Nat × ParameterBucket) :=
  l.filter (fun e => e.1 != i)

/-- The whole optimizer state visible to the two overlap-mode hooks:
the mapper state (`self.state["buckets"]` and the per-parameter
`fragments` entries, `none` while uninitialized), the gradient engine
state, the parameter-sync dict, the flattened parameter values, the
per-parameter `_pre_forward_hook_is_enabled` flags, and the
configuration flags read by the hooks. -/
structure HookState where
  buckets : List StateBucket
  frags : Nat → Option (List ParameterFragment)
  grad : GradState
  paramsBuckets : List (Nat × ParameterBucket)
  params : Nat → Buf
  pre_forward_hook_is_enabled : Nat → Bool
  greedy_grad_copy : Bool
  overlap_grad_sync : Bool
  overlap_param_sync : Bool

/-- Source `_finish_bucket_param_sync` (lines 1708-1716): every
`SYNCING` bucket drops its shard buffer and becomes `READY`; the stream
wait carries no modelled state. -/
def finishBucketParamSync (st : HookState) : HookState :=
  { st with paramsBuckets := st.paramsBuckets.map (fun e =>
      if e.2.status = .SYNCING then
        (e.1, { e.2 with params_shard := none, status := .READY })
      else e) }

/-- Source `_start_bucket_param_sync` (lines 1655-1706) at
`distributed_size = 1`: finish outstanding syncs, then every listed bucket
that is still `SHARDED` becomes `SYNCING` with the gathered buffer
aliasing the local shard (line 1676); the all-gather (lines 1692-1706)
is skipped for a singleton group. -/
def startBucketParamSync (ids : List Nat) (st : HookState) : HookState :=
  let st := finishBucketParamSync st
  { st with paramsBuckets := st.paramsBuckets.map (fun e =>
      if e.1 ∈ ids ∧ e.2.status = .SHARDED then
        (e.1, { e.2 with status := .SYNCING, params_bucket := e.2.params_shard })
      else e) }

/-- Source `_param_copy` (lines 1334-1391) for a single initialized
parameter: take the parameter's fragments whose bucket is still in
`_params_buckets`; if any of those buckets is not `READY`, start and
finish a sync for them; copy each fragment's slice of the gathered
bucket buffer into the parameter; finally mark the parameter as updated
in each bucket and delete buckets whose update count reached their
fragment count. -/
def paramCopy (pid : Nat) (st : HookState) : HookState :=
  let fragments := ((st.frags pid).getD []).filter
    (fun f => (pbFind st.paramsBuckets f.bucket_id).isSome)
  let needSync := fragments.any (fun f =>
    match pbFind st.paramsBuckets f.bucket_id with
    | some b => decide (b.status ≠ .READY)
    | none => false)
  let st := if needSync then
      finishBucketParamSync
        (startBucketParamSync (fragments.map (fun f => f.bucket_id)) st)
    else st
  let st := fragments.foldl (fun s f =>
      match pbFind s.paramsBuckets f.bucket_id with
      | some b =>
          let buf := overwriteSlice (s.params pid) f.param_range.1
            ((b.params_bucket).getD zeroBuf) f.bucket_range.1
            (f.param_range.2 - f.param_range.1)
          { s with params := setAt s.params pid buf }
      | none => s) st
  fragments.foldl (fun s f =>
      match pbFind s.paramsBuckets f.bucket_id with
      | some b =>
          let upd := if pid ∈ b.params_updated then b.params_updated
                     else b.params_updated ++ [pid]
          if upd.length = ((s.buckets.getD f.bucket_id default).fragments).length then
            { s with paramsBuckets := pbErase s.paramsBuckets f.bucket_id }
          else
            let pb := pbUpdate s.paramsBuckets f.bucket_id
              (fun b => { b with params_updated := upd })
            { s with paramsBuckets := pb }
      | none => s) st

/-- The common tail of `_try_start_bucket_param_sync` (lines 1634-1653)
for a given parameter list: collect the parameters' bucket ids, visit
them in sorted order (every bucket id is below the bucket count, so
filtering `List.range` enumerates the sorted set), keep those present in
`_params_buckets` and still `SHARDED`, and launch their sync if any. -/
def tryStartBucketParamSyncFor (pids : List Nat) (st : HookState) : HookState :=
  let bucketIds := pids.foldr
    (fun p acc => ((st.frags p).getD []).map (fun f => f.bucket_id) ++ acc) []
  let sortedIds := (List.range st.buckets.length).filter
    (fun i => bucketIds.contains i)
  let sharded := sortedIds.filter (fun i =>
    match pbFind st.paramsBuckets i with
    | some b => decide (b.status = .SHARDED)
    | none => false)
  if sharded.isEmpty then st else startBucketParamSync sharded st

/-- Source `_try_start_bucket_param_sync` with `params=None` (lines
1616-1632), the form the pre-forward hook invokes: do nothing while any
param sync is in flight; otherwise pick the first `SHARDED` bucket in
dict order and synchronize the parameter owning its last fragment (an
empty fragment list cannot occur for a registered bucket). -/
def tryStartBucketParamSyncAuto (st : HookState) : HookState :=
  if st.paramsBuckets.any (fun e => decide (e.2.status = .SYNCING)) then st
  else
    let pids := match st.paramsBuckets.find? (fun e => decide (e.2.status = .SHARDED)) with
      | none => []
      | some e =>
          match ((st.buckets.getD e.1 default).fragments).getLast? with
          | none => []
          | some frag => [frag.param_id]
    tryStartBucketParamSyncFor pids st

/-- Source `post_backward_hook` (lines 717-738): if the parameter's
pre-forward flag is still set, raise the fatal ordering error; otherwise
lazily initialize the parameter, run `_grad_copy` when
`greedy_grad_copy`, and with `overlap_grad_sync` try to launch the grad
sync, ignoring the last bucket when the parameter was just
initialized. -/
def postBackwardHook (cfg : Config) (param_group_id param_id param_size : Nat)
    (st : HookState) : Except String HookState :=
  if st.pre_forward_hook_is_enabled param_id then
    .error ("A parameter called its post-backward hook before its pre-forward hook. Please manually interact with the parameter before the forward pass (e.g. by calling data_ptr) or run DistributedFusedAdam with overlap_param_sync=False.")
  else
    let need_to_initialize := (st.frags param_id).isNone
    let st := if need_to_initialize then
        let r := initParamState cfg param_group_id param_id param_size st.buckets
        { st with buckets := r.1, frags := setAt st.frags param_id (some r.2) }
      else st
    let st := if st.greedy_grad_copy then
        let fragsOf := fun p => (st.frags p).getD []
        let g := gradCopy fragsOf param_id st.grad
        let g := if st.overlap_grad_sync then
            tryStartBucketGradSync st.buckets fragsOf [param_id] need_to_initialize g
          else g
        { st with grad := g }
      else st
    .ok st

/-- Source `pre_forward_hook` (lines 769-777): for a parameter without
initialized optimizer state the hook returns silently; otherwise it runs
`_param_copy` and, with `overlap_param_sync`, tries to launch the next
param sync. -/
def preForwardHook (param_id : Nat) (st : HookState) : Except String HookState :=
  match st.frags param_id with
  | none => .ok st
  | some _ =>
      let st := paramCopy param_id st
      let st := if st.overlap_param_sync then tryStartBucketParamSyncAuto st else st
      .ok st

/-- Source `getattribute_with_pre_forward_hook` (lines 894-900), the
read trigger: a read of the parameter clears the flag and fires the
pre-forward hook only when the flag is set. -/
def clearFlag (param_id : Nat) (st : HookState) : HookState :=
  let flags := setAt st.pre_forward_hook_is_enabled param_id false
  { st with pre_forward_hook_is_enabled := flags }

def readTrigger (param_id : Nat) (st : HookState) : Except String HookState :=
  if st.pre_forward_hook_is_enabled param_id then
    preForwardHook param_id (clearFlag param_id st)
  else .ok st

/-- Overlap mode right after `step` (line 2044): flags set, no
parameter state yet for the never-before-seen parameter. -/
def hookInit : HookState :=
  { buckets := []
    frags := fun _ => none
    grad := initialGradState
    paramsBuckets := []
    params := fun _ => zeroBuf
    pre_forward_hook_is_enabled := fun _ => true
    greedy_grad_copy := true
    overlap_grad_sync := true
    overlap_param_sync := true }


/-- C9 counterexample: with overlap mode enabled, the read trigger
firing on a never-before-seen parameter (no optimizer state, flag set)
is NOT reported as an error: `pre_forward_hook` hits the early
`return` at lines 771-772 and the trigger merely clears the flag,
returning the otherwise unchanged state.  (The fatal ordering error the
source actually raises lives in `post_backward_hook`, lines 717-725,
and fires in the opposite order.) -/
theorem C9_counterexample :
    hookInit.pre_forward_hook_is_enabled 5 = true ∧
    hookInit.frags 5 = none ∧
    readTrigger 5 hookInit = .ok (clearFlag 5 hookInit) :=
  ⟨rfl, rfl, rfl⟩

/-- C9 amended: the ordering error is raised in the opposite direction
of the claim.  (1) The write trigger (`post_backward_hook`) raises the
fatal `RuntimeError` with the source's descriptive message whenever the
parameter's `_pre_forward_hook_is_enabled` flag is still set, i.e. the
post-backward hook ran before the parameter was read.  (2) The read
trigger (`pre_forward_hook`) on a parameter without initialized
optimizer state is a silent no-op.  (3) Hence a read trigger firing
first on a never-before-seen parameter only clears the flag and
otherwise returns the state unchanged — no error is reported. -/
theorem C9_amended :
    (∀ (cfg : Config) (pgid pid n : Nat) (st : HookState),
      st.pre_forward_hook_is_enabled pid = true →
      postBackwardHook cfg pgid pid n st =
        .error ("A parameter called its post-backward hook before its pre-forward hook. Please manually interact with the parameter before the forward pass (e.g. by calling data_ptr) or run DistributedFusedAdam with overlap_param_sync=False.")) ∧
    (∀ (pid : Nat) (st : HookState), st.frags pid = none →
      preForwardHook pid st = .ok st) ∧
    (∀ (pid : Nat) (st : HookState), st.frags pid = none →
      st.pre_forward_hook_is_enabled pid = true →
      readTrigger pid st = .ok (clearFlag pid st)) := by
  refine ⟨?_, ?_, ?_⟩
  · intro cfg pgid pid n st h
    unfold postBackwardHook
    rw [if_pos h]
  · intro pid st h
    unfold preForwardHook
    rw [h]
  · intro pid st h he
    unfold readTrigger
    rw [if_pos he]
    unfold preForwardHook
    rw [show (clearFlag pid st).frags pid = none from h]

theorem C9_amended_witness :
    hookInit.pre_forward_hook_is_enabled 5 = true ∧
    hookInit.frags 5 = none ∧
    postBackwardHook demoCfg 0 5 4 hookInit =
      .error ("A parameter called its post-backward hook before its pre-forward hook. Please manually interact with the parameter before the forward pass (e.g. by calling data_ptr) or run DistributedFusedAdam with overlap_param_sync=False.") ∧
    preForwardHook 5 hookInit = .ok hookInit :=
  ⟨rfl, rfl, C9_amended.1 demoCfg 0 5 4 hookInit rfl, C9_amended.2.1 5 hookInit rfl⟩

/-! ### Checkpoint save/restore in the v2 format (C8) -/

/-- One write of the per-parameter load loop of `_load_state_dict_v2`
(lines 2720-2744), restricted to bucket `b`: a fragment in the local
shard copies `state[param][shard_param_range]` into
`shard[shard_range]` of its bucket (`e = (param index, fragment)`;
fragments produced by the mapper always carry both ranges when
`in_local_shard`). -/
def applyWrite (ckpt : Nat → Buf) (b : Nat) (sh : Buf) (e : Nat × ParameterFragment) :
    Buf :=
  if e.2.in_local_shard = true ∧ e.2.bucket_id = b then
    match e.2.shard_range, e.2.shard_param_range with
    | some sr, some pr => overwriteSlice sh sr.1 (ckpt e.1) pr.1 (sr.2 - sr.1)
    | _, _ => sh
  else sh

/-- The sequence of (param id, fragment) pairs visited by the nested
loop `for param in self.parameters(): for fragment in
self.state[param]["fragments"]` (lines 2707, 2720). -/
def loadWrites (fr : Nat → List ParameterFragment) (P : Nat) :
    List (Nat × ParameterFragment) :=
  (List.range P).flatMap (fun p => (fr p).map (fun f => (p, f)))

/-- Source `_load_state_dict_v2` (lines 2706-2744), one bucket's local
shard on the executing rank: every local fragment of every parameter
writes its slice of the checkpoint buffer into the shard. -/
def loadShards (ckpt : Nat → Buf) (fr : Nat → List ParameterFragment) (P b : Nat) :
    Buf :=
  (loadWrites fr P).foldl (applyWrite ckpt b) zeroBuf

/-- `start_gather` (lines 2533-2567): rank `i`'s shard lands in
`bucket_buffer[i * shard_size : (i + 1) * shard_size]`, so position `k`
of the gathered bucket reads position `k % S` of rank `k / S`'s
shard. -/
def gatherBucket (S : Nat) (shardOf : Nat → Buf) : Buf :=
  fun k => shardOf (k / S) (k % S)

/-- `finish_gather` (lines 2570-2609) regrouped per parameter: each of
the parameter's fragments copies `bucket_buffer[bucket_range]` into
`state_buffer[param_range]`; the copies of one gather pass write
disjoint slices of per-parameter buffers, so visiting them grouped by
parameter instead of by bucket is the same assignment.  State buffers
start as `torch.zeros_like(param)` (lines 2419-2423). -/
def savedParamBuf (S : Nat) (bucketBuf : Nat → Buf) (fs : List ParameterFragment) :
    Buf :=
  fs.foldl (fun buf f =>
    overwriteSlice buf f.param_range.1 (bucketBuf f.bucket_id) f.bucket_range.1
      (f.param_range.2 - f.param_range.1)) zeroBuf

/-- Loading a checkpoint at world size `W` and saving again: the shard
data produced by `_load_state_dict_v2` on every rank is gathered and
unpacked by `_state_dict_v2` into per-parameter buffers (`frags r p` is
rank `r`'s fragment list for parameter `p`; the root rank's static
fragment data drives `finish_gather`). -/
def saveAfterLoad (S P : Nat) (frags : Nat → Nat → List ParameterFragment)
    (ckpt : Nat → Buf) (p : Nat) : Buf :=
  savedParamBuf S
    (fun b => gatherBucket S (fun r => loadShards ckpt (frags r) P b))
    (frags 0 p)

/-- The shard position `q` of bucket `b` is written by fragment `f`
during the load. -/
def coversAt (b : Nat) (f : ParameterFragment) (q : Nat) : Prop :=
  f.in_local_shard = true ∧ f.bucket_id = b ∧
  (match f.shard_range with
   | some sr => sr.1 ≤ q ∧ q < sr.1 + (sr.2 - sr.1)
   | none => False)

/-- Two fragments that never overlap inside a bucket. -/
def fragsDisjoint (f g : ParameterFragment) : Prop :=
  f.bucket_id ≠ g.bucket_id ∨ f.bucket_range.2 ≤ g.bucket_range.1 ∨
    g.bucket_range.2 ≤ f.bucket_range.1

instance (f g : ParameterFragment) : Decidable (fragsDisjoint f g) := by
  unfold fragsDisjoint
  infer_instance

/-- The static (rank-independent) fields of a fragment list: all ranks
run the same packing loop of `_init_param_state`, only the
shard-relative fields of lines 1188-1205 depend on the rank. -/
def staticList (fs : List ParameterFragment) : List (Nat × (Nat × Nat) × (Nat × Nat)) :=
  fs.map (fun f => (f.bucket_id, f.param_range, f.bucket_range))

theorem shardFields_pos (r S bs be p0 : Nat)
    (hlt : min (bs - S * r) S < min (be - S * r) S) :
    shardFields r S bs be p0 =
      (true, some (min (bs - S * r) S, min (be - S * r) S),
        some (min (bs - S * r) S + S * r,
          min (bs - S * r) S + S * r + (min (be - S * r) S - min (bs - S * r) S)),
        some (min (bs - S * r) S + S * r - bs + p0,
          min (bs - S * r) S + S * r - bs + p0 +
            (min (be - S * r) S - min (bs - S * r) S))) := by
  simp only [shardFields]
  rw [if_pos hlt]

theorem shardFields_neg (r S bs be p0 : Nat)
    (hge : ¬ min (bs - S * r) S < min (be - S * r) S) :
    shardFields r S bs be p0 = (false, none, none, none) := by
  simp only [shardFields]
  rw [if_neg hge]

/-- A shard position covered by a rank-consistent fragment corresponds
to a bucket position inside the fragment's bucket range. -/
theorem coversAt_bucket_mem (r S b q : Nat) (f : ParameterFragment)
    (hsc : ShardConsistent r S f) (hcov : coversAt b f q) :
    f.bucket_id = b ∧ f.bucket_range.1 ≤ S * r + q ∧ S * r + q < f.bucket_range.2 := by
  obtain ⟨hloc, hb, hq⟩ := hcov
  refine ⟨hb, ?_, ?_⟩ <;>
  · unfold ShardConsistent at hsc
    by_cases hlt : min (f.bucket_range.1 - S * r) S < min (f.bucket_range.2 - S * r) S
    · rw [shardFields_pos _ _ _ _ _ hlt, Prod.mk.injEq, Prod.mk.injEq, Prod.mk.injEq]
        at hsc
      obtain ⟨h1, h2, h3, h4⟩ := hsc
      rw [h2] at hq
      simp only at hq
      omega
    · rw [shardFields_neg _ _ _ _ _ hlt, Prod.mk.injEq] at hsc
      rw [hsc.1] at hloc
      cases hloc

theorem paramChainP_mem_bounds {n : Nat} :
    ∀ {fs : List ParameterFragment} {s : Nat}, paramChainP s n fs →
      ∀ f ∈ fs, s ≤ f.param_range.1 ∧ f.param_range.1 < f.param_range.2 ∧
        f.param_range.2 ≤ n := by
  intro fs
  induction fs with
  | nil =>
    intro s _ f hf
    exact absurd hf (List.not_mem_nil f)
  | cons g fs ih =>
    intro s hch f hf
    obtain ⟨h1, h2, h3⟩ := hch
    rcases List.mem_cons.mp hf with rfl | hf
    · exact ⟨Nat.le_of_eq h1.symm, by omega, paramChainP_le h3⟩
    · have := ih h3 f hf
      omega

theorem applyWrite_miss (ckpt : Nat → Buf) (b q : Nat) (sh : Buf)
    (e : Nat × ParameterFragment) (hncov : ¬ coversAt b e.2 q) :
    applyWrite ckpt b sh e q = sh q := by
  unfold applyWrite
  by_cases hc : e.2.in_local_shard = true ∧ e.2.bucket_id = b
  · rw [if_pos hc]
    cases hsr : e.2.shard_range with
    | none =>
      cases hpr : e.2.shard_param_range with
      | none => simp only [hsr, hpr]
      | some pr => simp only [hsr, hpr]
    | some sr =>
      cases hpr : e.2.shard_param_range with
      | none => simp only [hsr, hpr]
      | some pr =>
        simp only [hsr, hpr]
        unfold coversAt at hncov
        rw [hsr] at hncov
        simp only [hc.1, hc.2, true_and, not_and, not_lt] at hncov
        unfold overwriteSlice
        rw [if_neg ?_]
        intro hcc
        omega
  · rw [if_neg hc]

theorem applyWrite_hit (ckpt : Nat → Buf) (b q : Nat) (sh : Buf)
    (e : Nat × ParameterFragment) (hcov : coversAt b e.2 q)
    (sr pr : Nat × Nat) (hsr : e.2.shard_range = some sr)
    (hpr : e.2.shard_param_range = some pr) :
    applyWrite ckpt b sh e q = ckpt e.1 (pr.1 + (q - sr.1)) := by
  obtain ⟨hloc, hb, hq⟩ := hcov
  rw [hsr] at hq
  simp only at hq
  unfold applyWrite
  rw [if_pos ⟨hloc, hb⟩]
  simp only [hsr, hpr]
  unfold overwriteSlice
  rw [if_pos ⟨hq.1, hq.2⟩]

theorem foldWrites_untouched (ckpt : Nat → Buf) (b q : Nat) :
    ∀ (l : List (Nat × ParameterFragment)) (sh : Buf),
      (∀ e ∈ l, ¬ coversAt b e.2 q) →
      (l.foldl (applyWrite ckpt b) sh) q = sh q := by
  intro l
  induction l with
  | nil => intro sh _; rfl
  | cons e l ih =>
    intro sh h
    rw [List.foldl_cons, ih _ (fun e' he' => h e' (List.mem_cons_of_mem e he')),
      applyWrite_miss ckpt b q sh e (h e (List.mem_cons_self e l))]

/-- Two rank-consistent fragments cannot both write one shard position:
their bucket ranges would have to overlap. -/
theorem coversAt_disjoint (r S b q : Nat) (f g : ParameterFragment)
    (hscf : ShardConsistent r S f) (hscg : ShardConsistent r S g)
    (hd : fragsDisjoint f g) (hf : coversAt b f q) (hg : coversAt b g q) : False := by
  obtain ⟨hb1, hm1, hm2⟩ := coversAt_bucket_mem r S b q f hscf hf
  obtain ⟨hb2, hm3, hm4⟩ := coversAt_bucket_mem r S b q g hscg hg
  rcases hd with hd | hd | hd
  · exact hd (hb1.trans hb2.symm)
  · omega
  · omega

theorem foldWrites_unique (ckpt : Nat → Buf) (b q r S : Nat) :
    ∀ (l : List (Nat × ParameterFragment)) (sh : Buf),
      l.Pairwise (fun e e' => fragsDisjoint e.2 e'.2) →
      (∀ e ∈ l, ShardConsistent r S e.2) →
      ∀ e₀ ∈ l, coversAt b e₀.2 q →
      ∀ sr pr, e₀.2.shard_range = some sr → e₀.2.shard_param_range = some pr →
      (l.foldl (applyWrite ckpt b) sh) q = ckpt e₀.1 (pr.1 + (q - sr.1)) := by
  intro l
  induction l with
  | nil =>
    intro sh _ _ e₀ he₀
    exact absurd he₀ (List.not_mem_nil e₀)
  | cons e l ih =>
    intro sh hpw hsc e₀ he₀ hcov sr pr hsr hpr
    rw [List.foldl_cons]
    rcases List.mem_cons.mp he₀ with rfl | he₀
    · rw [foldWrites_untouched ckpt b q l _ ?_,
        applyWrite_hit ckpt b q sh e₀ hcov sr pr hsr hpr]
      intro e' he' hcov'
      exact coversAt_disjoint r S b q e₀.2 e'.2 (hsc e₀ (List.mem_cons_self e₀ l))
        (hsc e' (List.mem_cons_of_mem e₀ he'))
        ((List.pairwise_cons.mp hpw).1 e' he') hcov hcov'
    · exact ih _ (List.pairwise_cons.mp hpw).2
        (fun e' he' => hsc e' (List.mem_cons_of_mem e he'))
        e₀ he₀ hcov sr pr hsr hpr

/-- A rank-consistent fragment whose bucket range contains `k` covers
shard position `k % S` on rank `k / S`, and the stored
shard-to-parameter index map sends it back to the right parameter
position. -/
theorem shardConsistent_covers (S : Nat) (hS : 0 < S) (g : ParameterFragment) (k : Nat)
    (hsc : ShardConsistent (k / S) S g)
    (hk1 : g.bucket_range.1 ≤ k) (hk2 : k < g.bucket_range.2) :
    ∃ sr pr, g.shard_range = some sr ∧ g.shard_param_range = some pr ∧
      coversAt g.bucket_id g (k % S) ∧
      pr.1 + (k % S - sr.1) = g.param_range.1 + (k - g.bucket_range.1) := by
  have hdm : S * (k / S) + k % S = k := Nat.div_add_mod k S
  have hms : k % S < S := Nat.mod_lt k hS
  have hlt : min (g.bucket_range.1 - S * (k / S)) S <
      min (g.bucket_range.2 - S * (k / S)) S := by omega
  unfold ShardConsistent at hsc
  rw [shardFields_pos _ _ _ _ _ hlt, Prod.mk.injEq, Prod.mk.injEq, Prod.mk.injEq] at hsc
  obtain ⟨h1, h2, h3, h4⟩ := hsc
  refine ⟨_, _, h2, h4, ⟨h1, rfl, ?_⟩, ?_⟩
  · rw [h2]
    simp only
    omega
  · simp only
    omega

theorem saveFold_untouched (bucketBuf : Nat → Buf) (t : Nat) :
    ∀ (fs : List ParameterFragment) (buf : Buf),
      (∀ f ∈ fs, ¬ (f.param_range.1 ≤ t ∧
        t < f.param_range.1 + (f.param_range.2 - f.param_range.1))) →
      (fs.foldl (fun buf f =>
        overwriteSlice buf f.param_range.1 (bucketBuf f.bucket_id) f.bucket_range.1
          (f.param_range.2 - f.param_range.1)) buf) t = buf t := by
  intro fs
  induction fs with
  | nil => intro buf _; rfl
  | cons f fs ih =>
    intro buf h
    rw [List.foldl_cons, ih _ (fun f' hf' => h f' (List.mem_cons_of_mem f hf'))]
    unfold overwriteSlice
    rw [if_neg (h f (List.mem_cons_self f fs))]

theorem saveFold_eq (bucketBuf : Nat → Buf) (n t : Nat) :
    ∀ (fs : List ParameterFragment) (s : Nat) (buf : Buf),
      paramChainP s n fs → s ≤ t → t < n →
      ∃ f, f ∈ fs ∧ f.param_range.1 ≤ t ∧ t < f.param_range.2 ∧
        (fs.foldl (fun buf f =>
          overwriteSlice buf f.param_range.1 (bucketBuf f.bucket_id) f.bucket_range.1
            (f.param_range.2 - f.param_range.1)) buf) t =
          bucketBuf f.bucket_id (f.bucket_range.1 + (t - f.param_range.1)) := by
  intro fs
  induction fs with
  | nil =>
    intro s buf hch hst htn
    exfalso
    have hsn : s = n := hch
    omega
  | cons f fs ih =>
    intro s buf hch hst htn
    obtain ⟨h1, h2, h3⟩ := hch
    by_cases hlt : t < f.param_range.2
    · refine ⟨f, List.mem_cons_self f fs, by omega, hlt, ?_⟩
      rw [List.foldl_cons, saveFold_untouched bucketBuf t fs _ ?_]
      · unfold overwriteSlice
        rw [if_pos (by omega)]
      · intro g hg hcc
        have := paramChainP_mem_bounds h3 g hg
        omega
    · obtain ⟨g, hg, hg1, hg2, hg3⟩ :=
        ih f.param_range.2 (overwriteSlice buf f.param_range.1
          (bucketBuf f.bucket_id) f.bucket_range.1
          (f.param_range.2 - f.param_range.1)) h3 (by omega) htn
      exact ⟨g, List.mem_cons_of_mem f hg, hg1, hg2, hg3⟩

theorem staticList_transfer {l l' : List ParameterFragment}
    (h : staticList l = staticList l') {f : ParameterFragment} (hf : f ∈ l') :
    ∃ g ∈ l, g.bucket_id = f.bucket_id ∧ g.param_range = f.param_range ∧
      g.bucket_range = f.bucket_range := by
  have hm : (f.bucket_id, f.param_range, f.bucket_range) ∈ staticList l := by
    rw [h]
    exact List.mem_map_of_mem _ hf
  obtain ⟨g, hg, heq⟩ := List.mem_map.mp hm
  rw [Prod.mk.injEq, Prod.mk.injEq] at heq
  exact ⟨g, hg, heq.1, heq.2.1, heq.2.2⟩

/-- C8: loading a v2 checkpoint (full unsharded per-parameter buffers)
into any well-formed bucket/shard configuration and saving again
reproduces the checkpoint bit-identically at every parameter position:
the persisted layout is independent of world size, so a save at one
world size followed by a restore at another preserves every parameter,
`exp_avg`, and `exp_avg_sq` value exactly (the three state keys go
through the identical gather/copy path, lines 2611-2636).  The
hypotheses say the per-rank fragment lists come from the mapper: each
parameter's fragments partition `[0, numel p)`, all ranks agree on the
static fields, shard fields satisfy the clamped-intersection formulas
with shard size `S`, bucket ranges fit the bucket and never overlap. -/
theorem C8_checkpoint_roundtrip (W S P : Nat) (numel : Nat → Nat)
    (frags : Nat → Nat → List ParameterFragment) (ckpt : Nat → Buf)
    (hS : 0 < S)
    (hchain : ∀ p, p < P → paramChainP 0 (numel p) (frags 0 p))
    (hwf : ∀ r, r < W → ∀ p, p < P → ∀ f ∈ frags r p,
      ShardConsistent r S f ∧ FragLenWf f ∧ f.bucket_range.2 ≤ S * W)
    (hstatic : ∀ r, r < W → ∀ p, p < P → staticList (frags r p) = staticList (frags 0 p))
    (hdisj : ∀ r, r < W →
      (loadWrites (frags r) P).Pairwise (fun e e' => fragsDisjoint e.2 e'.2))
    (hW : 0 < W) (p t : Nat) (hp : p < P) (ht : t < numel p) :
    saveAfterLoad S P frags ckpt p t = ckpt p t := by
  obtain ⟨f, hfmem, hf1, hf2, hval⟩ :=
    saveFold_eq (fun b => gatherBucket S (fun r => loadShards ckpt (frags r) P b))
      (numel p) t (frags 0 p) 0 zeroBuf (hchain p hp) (Nat.zero_le t) ht
  have hmain : saveAfterLoad S P frags ckpt p t =
      gatherBucket S (fun r => loadShards ckpt (frags r) P f.bucket_id)
        (f.bucket_range.1 + (t - f.param_range.1)) := hval
  obtain ⟨hsc0, hlen0, hbd0⟩ := hwf 0 hW p hp f hfmem
  have hk2 : f.bucket_range.1 + (t - f.param_range.1) < f.bucket_range.2 := by
    obtain ⟨hl1, hl2⟩ := hlen0
    omega
  have hrW : (f.bucket_range.1 + (t - f.param_range.1)) / S < W := by
    apply (Nat.div_lt_iff_lt_mul hS).mpr
    calc f.bucket_range.1 + (t - f.param_range.1) < f.bucket_range.2 := hk2
    _ ≤ S * W := hbd0
    _ = W * S := Nat.mul_comm S W
  obtain ⟨g, hgmem, hgb, hgp, hgr⟩ :=
    staticList_transfer
      (hstatic ((f.bucket_range.1 + (t - f.param_range.1)) / S) hrW p hp) hfmem
  obtain ⟨hscg, hleng, hbdg⟩ :=
    hwf ((f.bucket_range.1 + (t - f.param_range.1)) / S) hrW p hp g hgmem
  obtain ⟨sr, pr, hsr, hpr, hcov, heqn⟩ :=
    shardConsistent_covers S hS g (f.bucket_range.1 + (t - f.param_range.1)) hscg
      (by rw [hgr]; omega) (by rw [hgr]; exact hk2)
  have hmemw : (p, g) ∈ loadWrites
      (frags ((f.bucket_range.1 + (t - f.param_range.1)) / S)) P :=
    List.mem_flatMap.mpr ⟨p, List.mem_range.mpr hp, List.mem_map_of_mem _ hgmem⟩
  have hld := foldWrites_unique ckpt g.bucket_id
      ((f.bucket_range.1 + (t - f.param_range.1)) % S)
      ((f.bucket_range.1 + (t - f.param_range.1)) / S) S
      (loadWrites (frags ((f.bucket_range.1 + (t - f.param_range.1)) / S)) P)
      zeroBuf
      (hdisj _ hrW)
      ?_ (p, g) hmemw hcov sr pr hsr hpr
  · rw [hmain]
    unfold gatherBucket
    show loadShards ckpt _ P f.bucket_id _ = _
    rw [← hgb]
    show (loadWrites _ P).foldl _ zeroBuf _ = _
    rw [hld]
    have ht2 : pr.1 + ((f.bucket_range.1 + (t - f.param_range.1)) % S - sr.1) = t := by
      rw [heqn, hgp, hgr]
      omega
    rw [ht2]
  · intro e he
    obtain ⟨p', hp', he2⟩ := List.mem_flatMap.mp he
    obtain ⟨f', hf', he3⟩ := List.mem_map.mp he2
    have hp'P : p' < P := List.mem_range.mp hp'
    have := (hwf _ hrW p' hp'P f' hf').1
    rw [← he3]
    exact this

/-- Rank `r`'s mapper output for one 6-element parameter with alignment
2, world size 2, shard size 4 (bucket size 8): every rank runs
`_init_param_state` with its own `distributed_rank`. -/
def c8frags (r p : Nat) : List ParameterFragment :=
  match (initParams ⟨2, 2, r, 4⟩ [(0, 0, 6)] []).2.find? (fun e => e.2.1 = p) with
  | some e => e.2.2
  | none => []

def c8ckpt : Nat → Buf := fun p k => (p : Int) * 100 + k + 1

theorem C8_checkpoint_roundtrip_witness :
    0 < 4 ∧
    (∀ p, p < 1 → paramChainP 0 6 (c8frags 0 p)) ∧
    (∀ r, r < 2 → ∀ p, p < 1 → ∀ f ∈ c8frags r p,
      ShardConsistent r 4 f ∧ FragLenWf f ∧ f.bucket_range.2 ≤ 4 * 2) ∧
    (∀ r, r < 2 → ∀ p, p < 1 →
      staticList (c8frags r p) = staticList (c8frags 0 p)) ∧
    (∀ r, r < 2 →
      (loadWrites (c8frags r) 1).Pairwise (fun e e' => fragsDisjoint e.2 e'.2)) ∧
    0 < 2 ∧ 0 < 1 ∧ 5 < 6 ∧
    saveAfterLoad 4 1 c8frags c8ckpt 0 5 = c8ckpt 0 5 :=
  ⟨by decide, by decide, by decide,
   by
    intro r hr p hp
    have hp2 : p = 0 := by omega
    subst hp2
    have hr2 : r = 0 ∨ r = 1 := by omega
    rcases hr2 with rfl | rfl <;> decide,
   by decide, by decide, by decide, by decide,
   C8_checkpoint_roundtrip 2 4 1 (fun _ => 6) c8frags c8ckpt (by decide) (by decide)
     (by decide)
     (by
       intro r hr p hp
       have hp2 : p = 0 := by omega
       subst hp2
       have hr2 : r = 0 ∨ r = 1 := by omega
       rcases hr2 with rfl | rfl <;> decide)
     (by decide) (by decide) 0 5 (by decide) (by decide)⟩
